import Mathlib

/-!
Verification development for the octra wallet client (`src/cli.py`).

The client logic is shallowly embedded: Python values appearing in JSON
bodies are modelled by `JVal`, Python exceptions by `PyExn`, fallible
Python code by `Except PyExn`.  Numeric values (Python `int`/`float`)
are modelled by `ℤ`/`ℚ`; timestamps are `ℚ` seconds.  Each definition
mirrors a specific function or expression of `cli.py`, noted in its
doc comment.
-/

set_option maxRecDepth 16000

namespace Octra

mutual

/-- Model of a parsed JSON / Python value as handled by `cli.py`.
Python `int` and `float` are kept distinct (as `json.loads` does).
Arrays and objects carry the sibling spine types `JArr` / `JFields` so
that the derived equality test and all recursions stay structural. -/
inductive JVal where
  | jnull : JVal
  | jbool (b : Bool) : JVal
  | jint (n : ℤ) : JVal
  | jfloat (q : ℚ) : JVal
  | jstr (s : String) : JVal
  | jarr (xs : JArr) : JVal
  | jobj (fields : JFields) : JVal
deriving DecidableEq

/-- Spine of a JSON array. -/
inductive JArr where
  | nil : JArr
  | cons (v : JVal) (tl : JArr) : JArr
deriving DecidableEq

/-- Spine of a JSON object's field list. -/
inductive JFields where
  | nil : JFields
  | cons (k : String) (v : JVal) (tl : JFields) : JFields
deriving DecidableEq

end

/-- List view of an array spine. -/
def JArr.toList : JArr → List JVal
  | .nil => []
  | .cons v tl => v :: tl.toList

/-- Array spine from a list. -/
def JArr.ofList : List JVal → JArr
  | [] => .nil
  | v :: vs => .cons v (JArr.ofList vs)

/-- List view of a field spine. -/
def JFields.toList : JFields → List (String × JVal)
  | .nil => []
  | .cons k v tl => (k, v) :: tl.toList

/-- Field spine from a list. -/
def JFields.ofList : List (String × JVal) → JFields
  | [] => .nil
  | (k, v) :: fs => .cons k v (JFields.ofList fs)

/-- Array value from a list of elements. -/
def jA (xs : List JVal) : JVal := .jarr (JArr.ofList xs)

/-- Object value from a list of fields. -/
def jO (fs : List (String × JVal)) : JVal := .jobj (JFields.ofList fs)

/-- Model of a raised Python exception; only the `str(e)` text matters
to the client code. -/
structure PyExn where
  msg : String
deriving DecidableEq, Repr

/-- Result of fallible Python code. -/
abbrev PyRes (α : Type) := Except PyExn α

instance {ε α : Type _} [DecidableEq ε] [DecidableEq α] : DecidableEq (Except ε α) := fun x y =>
  match x, y with
  | .ok a, .ok b =>
    if h : a = b then .isTrue (by rw [h]) else .isFalse (fun he => h (by injection he))
  | .error a, .error b =>
    if h : a = b then .isTrue (by rw [h]) else .isFalse (fun he => h (by injection he))
  | .ok _, .error _ => .isFalse (fun h => Except.noConfusion h)
  | .error _, .ok _ => .isFalse (fun h => Except.noConfusion h)

/-- Python truthiness of a JSON value (`if json_data:`). -/
def jtruthy : JVal → Bool
  | .jnull => false
  | .jbool b => b
  | .jint n => n != 0
  | .jfloat q => q != 0
  | .jstr s => s != ""
  | .jarr .nil => false
  | .jarr (.cons _ _) => true
  | .jobj .nil => false
  | .jobj (.cons _ _ _) => true

/-- Truthiness of an optional JSON value (`None` is falsy). -/
def jtruthyO : Option JVal → Bool
  | none => false
  | some v => jtruthy v

/-- Last binding of a key in an object's field list (Python dicts keep
the last duplicate key). -/
def jobjFind (fs : JFields) (key : String) : Option JVal :=
  ((fs.toList.filter (fun kv => kv.1 = key)).getLast?).map Prod.snd

/-- Python `v.get(key, dflt)`: only dicts have `.get`; every other
receiver raises `AttributeError`. -/
def jgetE (v : JVal) (key : String) (dflt : JVal) : PyRes JVal :=
  match v with
  | .jobj fs => .ok ((jobjFind fs key).getD dflt)
  | _ => .error ⟨"AttributeError"⟩

/-- Python `v[key]` with a string key: `KeyError` on a missing dict key,
`TypeError` on any non-dict receiver. -/
def jindexE (v : JVal) (key : String) : PyRes JVal :=
  match v with
  | .jobj fs =>
    match jobjFind fs key with
    | some r => .ok r
    | none => .error ⟨"KeyError"⟩
  | _ => .error ⟨"TypeError"⟩

/-- Substring test, modelling Python `needle in haystack` on strings. -/
def pyInStr (needle hay : String) : Bool :=
  (List.range (hay.data.length + 1)).any
    (fun i => needle.data = (hay.data.drop i).take needle.data.length)

/-- Python `s.lower()` (ASCII model). -/
def pyToLower (s : String) : String :=
  String.mk (s.data.map Char.toLower)

/-- Python `s.startswith(pre)`. -/
def pyStartsWith (pre s : String) : Bool :=
  decide (s.data.take pre.data.length = pre.data)

/-- Python `key in v`: key lookup on dicts, element equality on lists,
substring test on strings, `TypeError` otherwise. -/
def pyHasKey (v : JVal) (key : String) : PyRes Bool :=
  match v with
  | .jobj fs => .ok (fs.toList.any (fun kv => kv.1 = key))
  | .jarr xs => .ok (xs.toList.any (fun x => x == .jstr key))
  | .jstr s => .ok (pyInStr key s)
  | _ => .error ⟨"TypeError"⟩

/-- Python iteration `for x in v`: lists yield elements, dicts yield
keys, strings yield one-character strings, anything else raises. -/
def pyIter (v : JVal) : PyRes (List JVal) :=
  match v with
  | .jarr xs => .ok xs.toList
  | .jobj fs => .ok (fs.toList.map (fun kv => .jstr kv.1))
  | .jstr s => .ok (s.data.map (fun c => .jstr (String.singleton c)))
  | _ => .error ⟨"TypeError"⟩

/-- Python `int()` truncation of a rational toward zero. -/
def pyTruncQ (q : ℚ) : ℤ :=
  if 0 ≤ q then ⌊q⌋ else ⌈q⌉

/-- Character class used by `str.split()` / JSON whitespace. -/
def isWsChar (c : Char) : Bool :=
  c = ' ' || c = '\t' || c = '\n' || c = '\r'

/-- Accumulator-based splitter behind `pySplit`. -/
def pySplitAux : List Char → List Char → List String
  | [], acc => if acc.isEmpty then [] else [String.mk acc.reverse]
  | c :: cs, acc =>
    if isWsChar c then
      if acc.isEmpty then pySplitAux cs []
      else String.mk acc.reverse :: pySplitAux cs []
    else pySplitAux cs (c :: acc)

/-- Python `s.split()` with no argument: split on whitespace runs,
dropping empty tokens. -/
def pySplit (s : String) : List String :=
  pySplitAux s.data []

/-- Python `s.isdigit()` (ASCII model). -/
def pyIsDigit (s : String) : Bool :=
  !s.data.isEmpty && s.data.all Char.isDigit

/-- Python `s.replace('.', '')`. -/
def stripDots (s : String) : String :=
  String.mk (s.data.filter (fun c => c ≠ '.'))

/-- Numeric value of a list of ASCII digits. -/
def digitsVal (ds : List Char) : ℕ :=
  ds.foldl (fun a c => a * 10 + (c.toNat - 48)) 0

/-- Python `int(s)` for a pure digit string (used under an `isdigit()`
guard, where it cannot raise). -/
def pyIntOfDigits (s : String) : ℤ :=
  (digitsVal s.data : ℤ)

/-- Python `float(s)` restricted to strings of digits and dots, the
domain reachable under the `replace('.','').isdigit()` guard of
`get_status`: more than one dot raises `ValueError` (`none`). -/
def pyFloatOfDigitsDots (s : String) : Option ℚ :=
  let dots := s.data.filter (fun c => c = '.')
  if 2 ≤ dots.length then none
  else
    let ip := s.data.takeWhile (fun c => c ≠ '.')
    match s.data.dropWhile (fun c => c ≠ '.') with
    | [] => some ((digitsVal ip : ℚ))
    | _ :: fp => some ((digitsVal ip : ℚ) + (digitsVal fp : ℚ) / (10 : ℚ) ^ fp.length)

/-- Python `int(s)` on a general string: optional surrounding
whitespace and sign, then digits; otherwise `ValueError`.
Underscore separators are not modelled. -/
def pyIntOfString (s : String) : PyRes ℤ :=
  let core := (s.data.dropWhile isWsChar).reverse.dropWhile isWsChar |>.reverse
  let (neg, ds) :=
    match core with
    | '-' :: rest => (true, rest)
    | '+' :: rest => (false, rest)
    | rest => (false, rest)
  if ds.isEmpty || !ds.all Char.isDigit then .error ⟨"ValueError"⟩
  else .ok (if neg then -(digitsVal ds : ℤ) else (digitsVal ds : ℤ))

/-- Python `float(s)` on a general string: optional surrounding
whitespace and sign, digits with at most one dot and at least one
digit; exponent/`inf`/`nan` forms are not modelled. -/
def pyFloatOfString (s : String) : PyRes ℚ :=
  let core := (s.data.dropWhile isWsChar).reverse.dropWhile isWsChar |>.reverse
  let (neg, ds) :=
    match core with
    | '-' :: rest => (true, rest)
    | '+' :: rest => (false, rest)
    | rest => (false, rest)
  if ds.isEmpty || !ds.all (fun c => c.isDigit || c = '.') then .error ⟨"ValueError"⟩
  else if !(ds.any Char.isDigit) then .error ⟨"ValueError"⟩
  else
    match pyFloatOfDigitsDots (String.mk ds) with
    | some q => .ok (if neg then -q else q)
    | none => .error ⟨"ValueError"⟩

/-- Python `int(v)`. -/
def pyIntE (v : JVal) : PyRes ℤ :=
  match v with
  | .jint n => .ok n
  | .jfloat q => .ok (pyTruncQ q)
  | .jbool b => .ok (if b then 1 else 0)
  | .jstr s => pyIntOfString s
  | _ => .error ⟨"TypeError"⟩

/-- Python `float(v)`. -/
def pyFloatE (v : JVal) : PyRes ℚ :=
  match v with
  | .jint n => .ok (n : ℚ)
  | .jfloat q => .ok q
  | .jbool b => .ok (if b then 1 else 0)
  | .jstr s => pyFloatOfString s
  | _ => .error ⟨"TypeError"⟩

/-- Whether `str(v)` contains a `'.'` character, modelling the
`'.' in str(amount_raw)` test of `get_history`.  Python float `repr`
is taken to always print a dot (exponent reprs are not modelled).
Containers are mapped to `false`: for them either branch of the
subsequent `float(...)` / `int(...)` raises `TypeError`, so the test's
value is unobservable in this model. -/
def pyStrHasDot : JVal → Bool
  | .jstr s => s.data.any (fun c => c = '.')
  | .jfloat _ => true
  | _ => false

/-- Conversion used for `datetime.fromtimestamp(...)`: only numbers are
accepted; the resulting entry time is the raw timestamp in seconds. -/
def pyTimestampE (v : JVal) : PyRes ℚ :=
  match v with
  | .jint n => .ok (n : ℚ)
  | .jfloat q => .ok q
  | .jbool b => .ok (if b then 1 else 0)
  | _ => .error ⟨"TypeError"⟩

/-- Skip JSON whitespace. -/
def skipWs (cs : List Char) : List Char := cs.dropWhile isWsChar

/-- Double-quote character. -/
def chQuote : Char := Char.ofNat 34

/-- Backslash character. -/
def chBackslash : Char := Char.ofNat 92

/-- Opening curly-brace character. -/
def chLBrace : Char := Char.ofNat 123

/-- Closing curly-brace character. -/
def chRBrace : Char := Char.ofNat 125

/-- String-body scanning for the JSON reader: consumes characters up to
the closing quote, translating simple escapes.  Unicode escapes are not
modelled. -/
def parseStrChars : ℕ → List Char → Option (List Char × List Char)
  | 0, _ => none
  | _ + 1, [] => none
  | fuel + 1, c :: cs =>
    if c = chQuote then some ([], cs)
    else if c = chBackslash then
      match cs with
      | [] => none
      | e :: cs2 =>
        let ec := if e = 'n' then '\n' else if e = 't' then '\t' else if e = 'r' then '\r'
          else if e = 'b' then Char.ofNat 8 else if e = 'f' then Char.ofNat 12 else e
        match parseStrChars fuel cs2 with
        | some (r, rest) => some (ec :: r, rest)
        | none => none
    else
      match parseStrChars fuel cs with
      | some (r, rest) => some (c :: r, rest)
      | none => none

/-- Whether the input begins with an exponent marker. -/
def hasExpHead (cs : List Char) : Bool :=
  match cs with
  | c :: _ => c = 'e' || c = 'E'
  | [] => false

/-- Read a JSON exponent part (input begins with `e`/`E`). -/
def parseExpAfter (cs : List Char) : Option (ℤ × List Char) :=
  match cs with
  | _ :: rest =>
    let (neg, rest1) :=
      match rest with
      | '-' :: r => (true, r)
      | '+' :: r => (false, r)
      | r => (false, r)
    let ds := rest1.takeWhile Char.isDigit
    let rest2 := rest1.dropWhile Char.isDigit
    if ds.isEmpty then none
    else some ((if neg then -(digitsVal ds : ℤ) else (digitsVal ds : ℤ)), rest2)
  | [] => none

/-- Integer power of ten over `ℚ`. -/
def qpow10 (e : ℤ) : ℚ :=
  if 0 ≤ e then (10 : ℚ) ^ e.toNat else ((10 : ℚ) ^ (-e).toNat)⁻¹

/-- Read a JSON number; a dot or exponent makes it a float, as in
Python's `json.loads`. -/
def parseNum (cs : List Char) : Option (JVal × List Char) :=
  let (neg, cs1) :=
    match cs with
    | '-' :: rest => (true, rest)
    | _ => (false, cs)
  let intDs := cs1.takeWhile Char.isDigit
  let cs2 := cs1.dropWhile Char.isDigit
  if intDs.isEmpty then none
  else if 2 ≤ intDs.length && intDs.headD '0' = '0' then none
  else
    match cs2 with
    | '.' :: cs3 =>
      let fracDs := cs3.takeWhile Char.isDigit
      let cs4 := cs3.dropWhile Char.isDigit
      if fracDs.isEmpty then none
      else
        let fv : ℚ := (digitsVal intDs : ℚ) + (digitsVal fracDs : ℚ) / (10 : ℚ) ^ fracDs.length
        let sv := if neg then -fv else fv
        if hasExpHead cs4 then
          match parseExpAfter cs4 with
          | some (e, rest) => some (.jfloat (sv * qpow10 e), rest)
          | none => none
        else some (.jfloat sv, cs4)
    | _ =>
      if hasExpHead cs2 then
        let iv : ℚ := (digitsVal intDs : ℚ)
        let sv := if neg then -iv else iv
        match parseExpAfter cs2 with
        | some (e, rest) => some (.jfloat (sv * qpow10 e), rest)
        | none => none
      else
        some (.jint (if neg then -(digitsVal intDs : ℤ) else (digitsVal intDs : ℤ)), cs2)

mutual

/-- Recursive-descent JSON value reader behind `pyJsonLoads`; the fuel
argument bounds nesting depth. -/
def parseJVal : ℕ → List Char → Option (JVal × List Char)
  | 0, _ => none
  | fuel + 1, cs =>
    match skipWs cs with
    | [] => none
    | 'n' :: 'u' :: 'l' :: 'l' :: rest => some (.jnull, rest)
    | 't' :: 'r' :: 'u' :: 'e' :: rest => some (.jbool true, rest)
    | 'f' :: 'a' :: 'l' :: 's' :: 'e' :: rest => some (.jbool false, rest)
    | c :: rest =>
      if c = chQuote then
        match parseStrChars (rest.length + 1) rest with
        | some (sc, rest2) => some (.jstr (String.mk sc), rest2)
        | none => none
      else if c = '[' then
        match skipWs rest with
        | ']' :: rest2 => some (jA [], rest2)
        | _ =>
          match parseArrItems fuel rest with
          | some (vs, rest2) => some (jA vs, rest2)
          | none => none
      else if c = chLBrace then
        match skipWs rest with
        | r :: rest2 =>
          if r = chRBrace then some (jO [], rest2)
          else
            match parseObjItems fuel rest with
            | some (fs, rest3) => some (jO fs, rest3)
            | none => none
        | [] => none
      else if c.isDigit || c = '-' then parseNum (c :: rest)
      else none

/-- Comma-separated array items up to the closing bracket. -/
def parseArrItems : ℕ → List Char → Option (List JVal × List Char)
  | 0, _ => none
  | fuel + 1, cs =>
    match parseJVal fuel cs with
    | none => none
    | some (v, rest) =>
      match skipWs rest with
      | ',' :: rest2 =>
        match parseArrItems fuel rest2 with
        | some (vs, rest3) => some (v :: vs, rest3)
        | none => none
      | ']' :: rest2 => some ([v], rest2)
      | _ => none

/-- Comma-separated object fields up to the closing brace. -/
def parseObjItems : ℕ → List Char → Option (List (String × JVal) × List Char)
  | 0, _ => none
  | fuel + 1, cs =>
    match skipWs cs with
    | c :: rest =>
      if c = chQuote then
        match parseStrChars (rest.length + 1) rest with
        | some (kc, rest2) =>
          match skipWs rest2 with
          | ':' :: rest3 =>
            match parseJVal fuel rest3 with
            | some (v, rest4) =>
              match skipWs rest4 with
              | ',' :: rest5 =>
                match parseObjItems fuel rest5 with
                | some (fs, rest6) => some ((String.mk kc, v) :: fs, rest6)
                | none => none
              | r :: rest5 =>
                if r = chRBrace then some ([(String.mk kc, v)], rest5) else none
              | [] => none
            | none => none
          | _ => none
        | none => none
      else none
    | [] => none

end

/-- Model of `json.loads(text) if text else None` with parse failures
mapped to `None`, as in `http_request`.  `NaN`/`Infinity` literals are
not modelled. -/
def pyJsonLoads (t : String) : Option JVal :=
  if t = "" then none
  else
    match parseJVal (t.length + 2) t.data with
    | some (v, rest) => if (skipWs rest).isEmpty then some v else none
    | none => none

/-- JSON string quoting used by `json.dumps` (quote, backslash and
control-character escapes only; other characters verbatim). -/
def jsonQuote (s : String) : String :=
  "\"" ++ String.join (s.data.map (fun c =>
    if c = chQuote then "\\\"" else if c = chBackslash then "\\\\"
    else if c = '\n' then "\\n" else if c = '\t' then "\\t" else if c = '\r' then "\\r"
    else String.singleton c)) ++ "\""

mutual

/-- Model of Python `json.dumps` with the given item and key separators;
the float repr is supplied by `fr`. -/
def pyDumpsSep (isep ksep : String) (fr : ℚ → String) : JVal → String
  | .jnull => "null"
  | .jbool b => if b then "true" else "false"
  | .jint n => toString n
  | .jfloat q => fr q
  | .jstr s => jsonQuote s
  | .jarr xs => "[" ++ dumpsItems isep ksep fr xs ++ "]"
  | .jobj fs => "\x7b" ++ dumpsFields isep ksep fr fs ++ "\x7d"

/-- Array items of a dump, joined by the item separator. -/
def dumpsItems (isep ksep : String) (fr : ℚ → String) : JArr → String
  | .nil => ""
  | .cons x .nil => pyDumpsSep isep ksep fr x
  | .cons x (.cons y rest) =>
    pyDumpsSep isep ksep fr x ++ isep ++ dumpsItems isep ksep fr (.cons y rest)

/-- Object fields of a dump, joined by the separators. -/
def dumpsFields (isep ksep : String) (fr : ℚ → String) : JFields → String
  | .nil => ""
  | .cons k v .nil => jsonQuote k ++ ksep ++ pyDumpsSep isep ksep fr v
  | .cons k v (.cons k2 v2 rest) =>
    jsonQuote k ++ ksep ++ pyDumpsSep isep ksep fr v ++ isep
      ++ dumpsFields isep ksep fr (.cons k2 v2 rest)

end

/-- Python `json.dumps(v)` with default separators, as in
`send_transaction`. -/
def pyDumps (fr : ℚ → String) (v : JVal) : String := pyDumpsSep ", " ": " fr v

/-- Python `json.dumps(v, separators=(",", ":"))`, as in
`create_transaction`. -/
def pyDumpsCompact (fr : ℚ → String) (v : JVal) : String := pyDumpsSep "," ":" fr v

/-! Client state and the RPC layer. -/

/-- Raw transport outcome of one HTTP call, before `http_request`'s
exception handling: a response, a timeout, or any other exception. -/
inductive NetRaw where
  | ok (status : ℕ) (text : String) : NetRaw
  | tmout : NetRaw
  | exn (msg : String) : NetRaw

/-- Model of `http_request` (`cli.py:139-156`): a transport outcome is
normalized to `(status, text, json_data)`, with `asyncio.TimeoutError`
mapped to `(0, "timeout", None)`, any other exception to
`(0, str(e), None)`, and an unparseable body to `json_data = None`. -/
def httpRequest : NetRaw → ℕ × String × Option JVal
  | .ok status text => (status, text, pyJsonLoads text)
  | .tmout => (0, "timeout", none)
  | .exn m => (0, m, none)

/-- History entry dict (`transaction_history` elements).  Keys absent
from submission-created entries (`nonce`, `epoch`) are `Option`s. -/
structure HEntry where
  time : ℚ
  hash : JVal
  amt : ℚ
  toAddr : JVal
  typ : String
  ok : Bool
  nonceV : Option JVal
  epoch : Option JVal
deriving DecidableEq

/-- Pending display state of an entry: `not tx.get('epoch')` — the key
is absent or its value is falsy. -/
def entryPending (e : HEntry) : Bool :=
  match e.epoch with
  | none => true
  | some v => !jtruthy v

/-- Mutable client fields referenced by `get_status` / `get_history`
(`WalletClient.__init__`). -/
structure ClientState where
  address : String
  currentNonce : Option ℤ
  currentBalance : Option ℚ
  lastUpdate : ℚ
  lastHistoryUpdate : ℚ
  history : List HEntry
deriving DecidableEq

/-! Account state cache: `get_status` (`cli.py:158-197`). -/

/-- Unwrapping of the account gather slot (`cli.py:171`): an exception
result is replaced by `(0, str(e), None)`. -/
def unwrapAcct : PyRes (ℕ × String × Option JVal) → ℕ × String × Option JVal
  | .ok r => r
  | .error e => (0, e.msg, none)

/-- Unwrapping of the staging gather slot (`cli.py:172`): only status
and JSON are used; an exception result becomes `(0, None, None)`. -/
def unwrapStaging : PyRes (ℕ × String × Option JVal) → ℕ × Option JVal
  | .ok (s, _, j) => (s, j)
  | .error _ => (0, none)

/-- Maximum of a list of integers, as Python `max` over a nonempty
iterable (0 for the empty list, which the caller rules out). -/
def maxIntList : List ℤ → ℤ
  | [] => 0
  | x :: xs => xs.foldl max x

/-- Staged-pool entries whose `from` field equals this wallet's address
(`cli.py:181`). -/
def ourStagedTxs (addr : String) (sd : JVal) : PyRes (List JVal) := do
  let lst ← jgetE sd "staged_transactions" (jA [])
  let elems ← pyIter lst
  elems.filterM (fun tx => do
    pure ((← jgetE tx "from" .jnull) == JVal.jstr addr))

/-- Nonces of staged transactions, `int(tx.get('nonce', 0))`
(`cli.py:183`). -/
def stagedNonces (txs : List JVal) : PyRes (List ℤ) :=
  txs.mapM (fun tx => do pyIntE (← jgetE tx "nonce" (.jint 0)))

/-- Two-token text fallback of `get_status` (`cli.py:186-195`).
`none` models the paths that leave the cache unchanged: fewer than two
whitespace tokens, or a first token that passes the
`replace('.','').isdigit()` guard yet raises in `float(...)` (two or
more dots), which the bare `except` swallows before any assignment.
A malformed token otherwise falls back to `0.0` / `0`. -/
def parseTextStatus (text : String) : Option (ℚ × ℤ) :=
  match pySplit text with
  | p0 :: p1 :: _ =>
    match (if pyIsDigit (stripDots p0) then pyFloatOfDigitsDots p0 else some 0) with
    | none => none
    | some b => some (b, if pyIsDigit p1 then pyIntOfDigits p1 else 0)
  | _ => none

/-- Model of `get_status` (`cli.py:158-197`).  Inputs are the two
gather results (account info, staging pool); the return value is the
updated state together with `(current_nonce, current_balance)`.
Exceptions raised by the structured branch propagate as `.error`. -/
def getStatus (st : ClientState) (now : ℚ)
    (acct staging : PyRes (ℕ × String × Option JVal)) :
    PyRes (ClientState × Option ℤ × Option ℚ) :=
  if st.currentBalance.isSome && decide (now - st.lastUpdate < 30) then
    .ok (st, st.currentNonce, st.currentBalance)
  else
    let (status, text, jd) := unwrapAcct acct
    let (sstatus, sd) := unwrapStaging staging
    if status = 200 && jtruthyO jd then
      match jd with
      | some j => do
        let n0 ← pyIntE (← jgetE j "nonce" (.jint 0))
        let b ← pyFloatE (← jgetE j "balance" (.jint 0))
        let n ←
          if sstatus = 200 && jtruthyO sd then
            match sd with
            | some sdj => do
              let our ← ourStagedTxs st.address sdj
              if our.isEmpty then pure n0
              else do
                let ns ← stagedNonces our
                pure (max n0 (maxIntList ns))
            | none => pure n0
          else pure n0
        .ok ({ st with currentNonce := some n, currentBalance := some b, lastUpdate := now },
             some n, some b)
      | none => .ok (st, st.currentNonce, st.currentBalance)
    else if status = 404 then
      .ok ({ st with currentNonce := some 0, currentBalance := some 0, lastUpdate := now },
           some 0, some 0)
    else if status = 200 && !(text == "") && !jtruthyO jd then
      match parseTextStatus text with
      | some (b, n) =>
        .ok ({ st with currentNonce := some n, currentBalance := some b, lastUpdate := now },
             some n, some b)
      | none => .ok (st, st.currentNonce, st.currentBalance)
    else .ok (st, st.currentNonce, st.currentBalance)

/-- `get_status` composed with `http_request` on raw transport
outcomes (the two awaited gather slots). -/
def getStatusNet (st : ClientState) (now : ℚ) (acct staging : NetRaw) :
    PyRes (ClientState × Option ℤ × Option ℚ) :=
  getStatus st now (.ok (httpRequest acct)) (.ok (httpRequest staging))

/-! Transaction builder: `create_transaction` (`cli.py:258-277`). -/

/-- Signed transaction record.  The `from` / `to_` key names of the
Python dict become `from_` / `to_`. -/
structure Tx where
  from_ : String
  to_ : String
  amount : String
  nonce : ℤ
  ou : String
  timestamp : ℚ
  signature : String
  public_key : String
deriving DecidableEq

/-- Model of `create_transaction`: the amount field is
`str(int(amount * 1_000_000))`, the fee tier `"1"` below 1000 tokens
and `"3"` otherwise; the signable bytes are the compact JSON dump of
the six pre-signature fields in insertion order.  Signing, hashing and
float repr are opaque parameters (`sign`, `hashHex`, `fr`). -/
def createTransaction (sign hashHex : String → String) (fr : ℚ → String)
    (senderAddr pubKey toAddress : String) (amount : ℚ) (nonce : ℤ) (timestamp : ℚ) :
    Tx × String :=
  let amountField := toString (pyTruncQ (amount * 1000000))
  let ouField := if amount < 1000 then "1" else "3"
  let txBytes := pyDumpsCompact fr (jO
    [("from", .jstr senderAddr), ("to_", .jstr toAddress), ("amount", .jstr amountField),
     ("nonce", .jint nonce), ("ou", .jstr ouField), ("timestamp", .jfloat timestamp)])
  ({ from_ := senderAddr, to_ := toAddress, amount := amountField, nonce := nonce,
     ou := ouField, timestamp := timestamp, signature := sign txBytes,
     public_key := pubKey }, hashHex txBytes)

/-! Submission pipeline: `send_transaction` (`cli.py:279-291`). -/

/-- Model of `send_transaction` applied to an `http_request` result
triple; `elapsed` is the measured latency.  The returned quadruple is
`(success, hash-or-error, elapsed, json_data)`; the second slot is a
`JVal` because the accepted branch returns `json_data.get('tx_hash',
'')` unchanged. -/
def sendTransaction (fr : ℚ → String) (elapsed : ℚ)
    (resp : ℕ × String × Option JVal) : PyRes (Bool × JVal × ℚ × Option JVal) :=
  let (status, text, jd) := resp
  let failText : JVal := .jstr (match jd with
    | some j => if jtruthy j then pyDumps fr j else text
    | none => text)
  let textOk : PyRes (Bool × JVal × ℚ × Option JVal) :=
    if pyStartsWith "ok" (pyToLower text) then
      .ok (true, .jstr ((pySplit text).getLastD ""), elapsed, none)
    else .ok (false, failText, elapsed, jd)
  if status = 200 then
    match jd with
    | some j =>
      if jtruthy j then do
        let sv ← jgetE j "status" .jnull
        if sv == JVal.jstr "accepted" then do
          let th ← jgetE j "tx_hash" (.jstr "")
          .ok (true, th, elapsed, some j)
        else textOk
      else textOk
    | none => textOk
  else .ok (false, failText, elapsed, jd)

/-! Batch pipeline: `send_multi_transaction` (`cli.py:620-680`). -/

/-- Chunking `recipients[i:i+5]` for `i in range(0, len, 5)`
(`batch_size = 5`, `cli.py:623-624`), written with explicit short-list
cases so the recursion is structural. -/
def chunk5 {α : Type _} : List α → List (List α)
  | [] => []
  | [a] => [[a]]
  | [a, b] => [[a, b]]
  | [a, b, c] => [[a, b, c]]
  | [a, b, c, d] => [[a, b, c, d]]
  | a :: b :: c :: d :: e :: rest => [a, b, c, d, e] :: chunk5 rest

/-- Outcome of one gathered `send_transaction` task: either a captured
exception (`return_exceptions=True`) or the result quadruple. -/
inductive SubOutcome where
  | exn (msg : String) : SubOutcome
  | res (success : Bool) (hsh : JVal) (elapsed : ℚ) (jd : Option JVal) : SubOutcome
deriving DecidableEq

/-- Classification used by the tally loop (`cli.py:639-662`): only a
non-exception result with `success = True` counts as a success. -/
def outcomeOk : SubOutcome → Bool
  | .res true _ _ _ => true
  | _ => false

/-- Transactions built by the batch loops: for chunk `batch_idx` and
in-chunk position `i`, the global index is `batch_idx * 5 + i` and the
assigned nonce `nonce + 1 + idx` (`cli.py:627-634`). -/
def sendMultiBatchTxs (sign hashHex : String → String) (fr : ℚ → String)
    (senderAddr pubKey : String) (ts : ℕ → ℚ) (nonce : ℤ)
    (recipients : List (String × ℚ)) : List Tx :=
  (chunk5 recipients).enum.flatMap (fun p =>
    p.2.enum.map (fun q =>
      let idx := p.1 * 5 + q.1
      (createTransaction sign hashHex fr senderAddr pubKey q.2.1 q.2.2
        (nonce + 1 + (idx : ℤ)) (ts idx)).1))

/-- Per-transaction outcomes in tally order, indexed exactly as the
double loop of `cli.py:627-662` indexes them. -/
def sendMultiOutcomes (recipients : List (String × ℚ))
    (outcome : ℕ → SubOutcome) : List SubOutcome :=
  (chunk5 recipients).enum.flatMap (fun p =>
    p.2.enum.map (fun q => outcome (p.1 * 5 + q.1)))

/-- Final `(success_count, fail_count)` tally of the batch loop. -/
def sendMultiTally (recipients : List (String × ℚ))
    (outcome : ℕ → SubOutcome) : ℕ × ℕ :=
  ((sendMultiOutcomes recipients outcome).countP outcomeOk,
   (sendMultiOutcomes recipients outcome).countP (fun o => !outcomeOk o))

/-! History reconciler: `get_history` (`cli.py:199-256`). -/

/-- Reference nodes `json_data.get('recent_transactions', [])`
(`cli.py:210`, `cli.py:219`). -/
def refsListOf (j : JVal) : PyRes (List JVal) := do
  let refsV ← jgetE j "recent_transactions" (jA [])
  pyIter refsV

/-- Detail-fetch list `[ref["hash"] for ref in ...]` (`cli.py:210`):
one `/tx/{hash}` URL per reference, with no filtering against local
history. -/
def txHashesOf (j : JVal) : PyRes (List JVal) := do
  let refs ← refsListOf j
  refs.mapM (fun r => jindexE r "hash")

/-- Processing of one `(ref, result)` pair of the reconciliation loop
(`cli.py:219-244`): gather exceptions are skipped, as are non-200 or
shapeless detail responses and hashes already present locally;
otherwise the new history entry is built. -/
def buildEntry (addr : String) (existing : List JVal) (refNode : JVal)
    (res : PyRes (ℕ × String × Option JVal)) : PyRes (Option HEntry) :=
  match res with
  | .error _ => .ok none
  | .ok (txStatus, _, txJd) =>
    match txJd with
    | none => .ok none
    | some td =>
      if txStatus = 200 && jtruthy td then do
        let hasP ← pyHasKey td "parsed_tx"
        if hasP then do
          let parsed ← jindexE td "parsed_tx"
          let txHash ← jindexE refNode "hash"
          if txHash ∈ existing then .ok none
          else do
            let toV ← jgetE parsed "to" .jnull
            let isIncoming := toV == JVal.jstr addr
            let amtDefault ← jgetE parsed "amount" (.jstr "0")
            let amountRaw ← jgetE parsed "amount_raw" amtDefault
            let amount ←
              if pyStrHasDot amountRaw then pyFloatE amountRaw
              else do
                let i ← pyIntE amountRaw
                pure ((i : ℚ) / 1000000)
            let tsV ← jgetE parsed "timestamp" (.jint 0)
            let ts ← pyTimestampE tsV
            let fromV ← jgetE parsed "from" .jnull
            let nv ← jgetE parsed "nonce" (.jint 0)
            let ev ← jgetE refNode "epoch" (.jint 0)
            .ok (some { time := ts, hash := txHash, amt := amount,
                        toAddr := if isIncoming then fromV else toV,
                        typ := if isIncoming then "in" else "out",
                        ok := true, nonceV := some nv, epoch := some ev })
        else .ok none
      else .ok none

/-- New entries collected by the loop of `cli.py:219-244`, in order:
references zipped with detail results (`zip` truncates identically in
Python and Lean). -/
def newEntriesOf (addr : String) (existing : List JVal) (j : JVal)
    (details : List (PyRes (ℕ × String × Option JVal))) : PyRes (List HEntry) := do
  let refs ← refsListOf j
  let opts ← (refs.zip details).mapM (fun rd => buildEntry addr existing rd.1 rd.2)
  pure (opts.filterMap id)

/-- Insertion of one element into a sorted list: `a` goes before the
first `b` with `le a b`. -/
def insertSortedBy {α : Type _} (le : α → α → Bool) (a : α) : List α → List α
  | [] => [a]
  | b :: bs => if le a b then a :: b :: bs else b :: insertSortedBy le a bs

/-- Stable insertion sort; with `le a b := (b.time ≤ a.time)` it yields
exactly Python's stable `sorted(key=time, reverse=True)`: on ties the
earlier element stays first. -/
def sortStableBy {α : Type _} (le : α → α → Bool) : List α → List α
  | [] => []
  | a :: as => insertSortedBy le a (sortStableBy le as)

/-- Merge step of `cli.py:246-252`: new entries plus pre-existing
entries newer than one hour, sorted by time descending (stable), and
truncated to 50. -/
def mergeHistory (now : ℚ) (newH old : List HEntry) : List HEntry :=
  (sortStableBy (fun a b => decide (b.time ≤ a.time))
    (newH ++ old.filter (fun tx => decide (now - 3600 < tx.time)))).take 50

/-- Model of `get_history` (`cli.py:199-256`).  `resp` is the
`http_request` result for `/address/{addr}?limit=20`; `details` are
the gathered `/tx/{hash}` results in fetch order.  The returned state
carries the updated history and `last_history_update`. -/
def getHistory (st : ClientState) (now : ℚ) (resp : ℕ × String × Option JVal)
    (details : List (PyRes (ℕ × String × Option JVal))) : PyRes ClientState :=
  if decide (now - st.lastHistoryUpdate < 60) && !st.history.isEmpty then .ok st
  else
    let (status, text, jd) := resp
    if !(status = 200) || (!jtruthyO jd && text == "") then .ok st
    else do
      let hasRT ←
        match jd with
        | some j => if jtruthy j then pyHasKey j "recent_transactions" else pure false
        | none => pure false
      if hasRT then
        match jd with
        | some j => do
          let _fetched ← txHashesOf j
          let newH ← newEntriesOf st.address (st.history.map HEntry.hash) j details
          .ok { st with history := mergeHistory now newH st.history,
                        lastHistoryUpdate := now }
        | none => .ok st
      else if status = 404 || (status = 200 && !(text == "")
          && pyInStr "no transactions" (pyToLower text)) then
        .ok { st with history := [], lastHistoryUpdate := now }
      else .ok st

/-! Spec-side formulations, for refinement comparison only. -/

/-- Modelled from the spec: `round(amount × 1,000,000)` of §4.2, read
as ordinary rounding to the nearest integer (half up). -/
def specRound (q : ℚ) : ℤ := ⌊q + 1 / 2⌋

/-- Structured-acceptance test of `send_transaction`'s first success
shape: truthy JSON whose `status` field equals `"accepted"`. -/
def jsonAcceptedB (jd : Option JVal) : Bool :=
  match jd with
  | some j => jtruthy j && (jgetE j "status" .jnull == (.ok (JVal.jstr "accepted") : PyRes JVal))
  | none => false

/-- Modelled from the spec: the submission responses §4.3 classifies as
success — structured acceptance, or a plain-text body beginning with
"ok" followed by a hash token (hence at least two tokens). -/
def specSubmitSuccess (status : ℕ) (text : String) (jd : Option JVal) : Bool :=
  status == 200 &&
    (jsonAcceptedB jd || (pyStartsWith "ok" (pyToLower text) && decide (2 ≤ (pySplit text).length)))

/-- History invariant of §3 relative to the current time: at most 50
entries, pairwise-distinct hashes, and no non-pending entry older than
one hour. -/
def histInvariant (now : ℚ) (hist : List HEntry) : Prop :=
  hist.length ≤ 50 ∧ (hist.map HEntry.hash).Nodup ∧
    ∀ e ∈ hist, entryPending e = false → now - 3600 < e.time

/-! Index bookkeeping used to reason about the chunked batch loops. -/

/-- Map with an explicit running index, the flat counterpart of the
`batch_idx * 5 + i` arithmetic of `send_multi_transaction`. -/
def mapIdxFrom {α β : Type _} (f : ℕ → α → β) : ℕ → List α → List β
  | _, [] => []
  | k, x :: xs => f k x :: mapIdxFrom f (k + 1) xs

/-! Concrete instances used by counterexamples and witnesses. -/

/-- Fresh client state with address `"A"` and empty cache/history. -/
def emptyState : ClientState :=
  { address := "A", currentNonce := none, currentBalance := none,
    lastUpdate := 0, lastHistoryUpdate := 0, history := [] }

/-- Staging-pool body carrying one staged transaction of address `"A"`
at nonce 10. -/
def c1StagingBody : String :=
  "\x7b\"staged_transactions\":[\x7b\"from\":\"A\",\"nonce\":10\x7d]\x7d"

/-- Parsed form of `c1StagingBody`. -/
def c1StagedJson : JVal :=
  jO [("staged_transactions", jA [jO [("from", .jstr "A"), ("nonce", .jint 10)]])]

/-- The single staged transaction of `c1StagingBody`. -/
def c1StagedTx : JVal := jO [("from", .jstr "A"), ("nonce", .jint 10)]

/-- State after the C1 counterexample call: the text fallback adopted
balance 5.0 and nonce 2 and marked the cache fresh. -/
def c1Post : ClientState :=
  { emptyState with currentNonce := some 2, currentBalance := some 5, lastUpdate := 100 }

/-- Structured account body used by the C1 witness. -/
def c1wAcctBody : String := "\x7b\"balance\":\"5.5\",\"nonce\":2\x7d"

/-- Parsed form of `c1wAcctBody`. -/
def c1wAcctJson : JVal := jO [("balance", .jstr "5.5"), ("nonce", .jint 2)]

/-- State after the C1 witness call: structured adoption of balance
5.5 and nonce 2, raised to the staged nonce 10. -/
def c1wPost : ClientState :=
  { emptyState with
    currentNonce := some 10
    currentBalance := some (11 / 2)
    lastUpdate := 100 }

/-- Pre-state of the C7 counterexample: a populated, stale cache. -/
def c7Pre : ClientState :=
  { emptyState with currentNonce := some 7, currentBalance := some (7 / 2) }

/-- Post-state of the C7 counterexample: the malformed two-token body
zeroed the cache and refreshed the timestamp. -/
def c7Post : ClientState :=
  { emptyState with currentNonce := some 0, currentBalance := some 0, lastUpdate := 100 }

/-- History reference body: one reference, hash `"h1"`, epoch 5. -/
def refsBodyH1 : String :=
  "\x7b\"recent_transactions\":[\x7b\"hash\":\"h1\",\"epoch\":5\x7d]\x7d"

/-- Parsed form of `refsBodyH1`. -/
def refsJsonH1 : JVal :=
  jO [("recent_transactions", jA [jO [("hash", .jstr "h1"), ("epoch", .jint 5)]])]

/-- The single reference node of `refsBodyH1`. -/
def refNodeH1 : JVal := jO [("hash", .jstr "h1"), ("epoch", .jint 5)]

/-- Detail response for hash `"h1"`: transaction to `"B"`, one token,
confirmed at wall-clock second 1000. -/
def detailH1 : PyRes (ℕ × String × Option JVal) :=
  .ok (httpRequest (.ok 200
    "\x7b\"parsed_tx\":\x7b\"to\":\"B\",\"amount\":\"1000000\",\"timestamp\":1000,\"nonce\":1\x7d\x7d"))

/-- Entry built from `refsBodyH1` / `detailH1` by the merge. -/
def c4Entry : HEntry :=
  { time := 1000, hash := .jstr "h1", amt := 1, toAddr := .jstr "B", typ := "out",
    ok := true, nonceV := some (.jint 1), epoch := some (.jint 5) }

/-- Post-state of the C4 counterexample. -/
def c4Post : ClientState :=
  { emptyState with history := [c4Entry], lastHistoryUpdate := 10000 }

/-- Reference body with an empty reference list, for the C4 witness. -/
def c4wBody : String := "\x7b\"recent_transactions\":[]\x7d"

/-- Parsed form of `c4wBody`. -/
def c4wJson : JVal := jO [("recent_transactions", jA [])]

/-- Post-state of the C4 witness merge (still empty history). -/
def c4wPost : ClientState := { emptyState with lastHistoryUpdate := 10000 }

/-- Pending local entry with hash `"h1"`, created by a submission
(no `nonce`/`epoch` keys) 500 seconds before the refresh. -/
def c5PendEntry : HEntry :=
  { time := 9500, hash := .jstr "h1", amt := 1, toAddr := .jstr "B", typ := "out",
    ok := true, nonceV := none, epoch := none }

/-- Pre-state of the C5 counterexample: the pending entry is in local
history. -/
def c5Pre : ClientState := { emptyState with history := [c5PendEntry] }

/-- Post-state of the C5 counterexample: the entry is retained
unchanged, still without an epoch. -/
def c5Post : ClientState := { c5Pre with lastHistoryUpdate := 10000 }

/-- Local entry with hash `"h1"` used by the C9 counterexample. -/
def c9Entry : HEntry :=
  { time := 9990, hash := .jstr "h1", amt := 2, toAddr := .jstr "C", typ := "in",
    ok := true, nonceV := some (.jint 4), epoch := some (.jint 3) }

/-- Pre-state of the C9 counterexample. -/
def c9Pre : ClientState := { emptyState with history := [c9Entry] }

/-- Post-state of the C9 counterexample. -/
def c9Post : ClientState := { c9Pre with lastHistoryUpdate := 10000 }

/-- Accepted submission body used by the C6 witness. -/
def c6wBody : String := "\x7b\"status\":\"accepted\",\"tx_hash\":\"HH\"\x7d"

/-- Parsed form of `c6wBody`. -/
def c6wJson : JVal := jO [("status", .jstr "accepted"), ("tx_hash", .jstr "HH")]

/-- Seven recipients for the C8 scenario. -/
def sampleRecipients7 : List (String × ℚ) :=
  [("r1", 1), ("r2", 1), ("r3", 1), ("r4", 1), ("r5", 1), ("r6", 1), ("r7", 1)]

/-- Outcome assignment for the C8 scenario: recipient #3 (index 2)
fails, all others succeed. -/
def sampleOutcome7 : ℕ → SubOutcome :=
  fun i => .res (decide (i ≠ 2)) (.jstr "h") 0 none

/-! Helper lemmas. -/

theorem pyBind_ok {α β : Type} {m : PyRes α} {k : α → PyRes β} {b : β}
    (h : m >>= k = .ok b) : ∃ a, m = .ok a ∧ k a = .ok b := by
  cases m with
  | ok a => exact ⟨a, rfl, h⟩
  | error e => simp [Bind.bind, Except.bind] at h

theorem mapM_ok_length {α β : Type} (f : α → PyRes β) :
    ∀ {l : List α} {ys : List β}, l.mapM f = .ok ys → ys.length = l.length := by
  intro l
  induction l with
  | nil =>
    intro ys h
    rw [List.mapM_nil] at h
    simp only [pure, Except.pure] at h
    cases h
    rfl
  | cons x xs ih =>
    intro ys h
    rw [List.mapM_cons] at h
    obtain ⟨a, _, h2⟩ := pyBind_ok h
    obtain ⟨as, has, h3⟩ := pyBind_ok h2
    simp only [pure, Except.pure] at h3
    cases h3
    simp [ih has]

theorem mapM_ok_mem {α β : Type} (f : α → PyRes β) :
    ∀ {l : List α} {ys : List β}, l.mapM f = .ok ys → ∀ y ∈ ys, ∃ x ∈ l, f x = .ok y := by
  intro l
  induction l with
  | nil =>
    intro ys h y hy
    rw [List.mapM_nil] at h
    simp only [pure, Except.pure] at h
    cases h
    cases hy
  | cons x xs ih =>
    intro ys h y hy
    rw [List.mapM_cons] at h
    obtain ⟨a, ha, h2⟩ := pyBind_ok h
    obtain ⟨as, has, h3⟩ := pyBind_ok h2
    simp only [pure, Except.pure] at h3
    cases h3
    rcases List.mem_cons.1 hy with hy | hy
    · exact ⟨x, List.mem_cons_self x xs, hy ▸ ha⟩
    · obtain ⟨x', hx', hfx'⟩ := ih has y hy
      exact ⟨x', List.mem_cons_of_mem x hx', hfx'⟩

theorem seed_le_foldl_max : ∀ (xs : List ℤ) (a : ℤ), a ≤ xs.foldl max a := by
  intro xs
  induction xs with
  | nil => intro a; exact le_refl a
  | cons x xs ih =>
    intro a
    exact le_trans (le_max_left a x) (ih (max a x))

theorem le_foldl_max : ∀ (xs : List ℤ) (a m : ℤ), m = a ∨ m ∈ xs → m ≤ xs.foldl max a := by
  intro xs
  induction xs with
  | nil =>
    intro a m h
    rcases h with h | h
    · exact h ▸ le_refl a
    · cases h
  | cons x xs ih =>
    intro a m h
    show m ≤ xs.foldl max (max a x)
    rcases h with h | h
    · exact le_trans (h ▸ le_max_left a x) (seed_le_foldl_max xs (max a x))
    · rcases List.mem_cons.1 h with h | h
      · exact le_trans (h ▸ le_max_right a x) (seed_le_foldl_max xs (max a x))
      · exact ih (max a x) m (Or.inr h)

theorem le_maxIntList {m : ℤ} {l : List ℤ} (h : m ∈ l) : m ≤ maxIntList l := by
  cases l with
  | nil => cases h
  | cons x xs =>
    rcases List.mem_cons.1 h with h | h
    · exact le_foldl_max xs x m (Or.inl h)
    · exact le_foldl_max xs x m (Or.inr h)

theorem enumFrom_map_eq_mapIdxFrom {α β : Type _} (g : ℕ → α → β) :
    ∀ (l : List α) (k : ℕ),
      (l.enumFrom k).map (fun q => g q.1 q.2) = mapIdxFrom g k l := by
  intro l
  induction l with
  | nil => intro k; rfl
  | cons x xs ih => intro k; simp [List.enumFrom_cons, mapIdxFrom, ih]

theorem mapIdxFrom_shift {α β : Type _} (g : ℕ → α → β) (m : ℕ) :
    ∀ (l : List α) (k : ℕ),
      mapIdxFrom (fun i a => g (m + i) a) k l = mapIdxFrom g (m + k) l := by
  intro l
  induction l with
  | nil => intro k; rfl
  | cons x xs ih =>
    intro k
    have h : m + (k + 1) = m + k + 1 := by omega
    simp only [mapIdxFrom, ih, h]

theorem mapIdxFrom_append {α β : Type _} (f : ℕ → α → β) :
    ∀ (l₁ l₂ : List α) (k : ℕ),
      mapIdxFrom f k (l₁ ++ l₂) = mapIdxFrom f k l₁ ++ mapIdxFrom f (k + l₁.length) l₂ := by
  intro l₁
  induction l₁ with
  | nil => intro l₂ k; simp [mapIdxFrom]
  | cons x xs ih =>
    intro l₂ k
    show f k x :: mapIdxFrom f (k + 1) (xs ++ l₂)
        = f k x :: (mapIdxFrom f (k + 1) xs ++ mapIdxFrom f (k + (xs.length + 1)) l₂)
    rw [ih l₂ (k + 1)]
    have h : k + (xs.length + 1) = k + 1 + xs.length := by omega
    rw [h]

theorem map_mapIdxFrom {α β γ : Type _} (f : ℕ → α → β) (g : β → γ) :
    ∀ (l : List α) (k : ℕ),
      (mapIdxFrom f k l).map g = mapIdxFrom (fun i a => g (f i a)) k l := by
  intro l
  induction l with
  | nil => intro k; rfl
  | cons x xs ih => intro k; simp [mapIdxFrom, ih]

theorem mapIdxFrom_ignore {α β : Type _} (g : α → β) :
    ∀ (l : List α) (k : ℕ), mapIdxFrom (fun _ a => g a) k l = l.map g := by
  intro l
  induction l with
  | nil => intro k; rfl
  | cons x xs ih => intro k; simp [mapIdxFrom, ih]

theorem mapIdxFrom_const_idx {β : Type _} {α : Type _} (g : ℕ → β) :
    ∀ (l : List α) (k : ℕ),
      mapIdxFrom (fun i _ => g i) k l = (List.range l.length).map (fun i => g (k + i)) := by
  intro l
  induction l with
  | nil => intro k; rfl
  | cons x xs ih =>
    intro k
    simp only [mapIdxFrom, List.length_cons, List.range_succ_eq_map, List.map_cons,
      List.map_map, ih]
    refine congrArg₂ List.cons (by simp) ?_
    refine List.map_congr_left (fun i _ => ?_)
    simp only [Function.comp]
    congr 1
    omega

theorem chunk5_cons_eq {α : Type _} (x : α) (xs : List α) :
    chunk5 (x :: xs) = ((x :: xs).take 5) :: chunk5 ((x :: xs).drop 5) := by
  rcases xs with _ | ⟨b, _ | ⟨c, _ | ⟨d, _ | ⟨e, rest⟩⟩⟩⟩ <;> rfl

theorem chunk5_enumFrom_flatMap_bounded {α β : Type _} (f : ℕ → α → β) :
    ∀ (n : ℕ) (l : List α), l.length ≤ n → ∀ (k : ℕ),
      ((chunk5 l).enumFrom k).flatMap
          (fun p => p.2.enum.map (fun q => f (p.1 * 5 + q.1) q.2))
        = mapIdxFrom f (k * 5) l := by
  intro n
  induction n with
  | zero =>
    intro l hl k
    have hnil : l = [] := List.eq_nil_of_length_eq_zero (Nat.le_zero.1 hl)
    subst hnil
    rfl
  | succ n ih =>
    intro l hl k
    match l with
    | [] => rfl
    | x :: xs =>
      rw [chunk5_cons_eq, List.enumFrom_cons, List.flatMap_cons]
      have h1 : (List.take 5 (x :: xs)).enum.map (fun q => f (k * 5 + q.1) q.2)
          = mapIdxFrom f (k * 5) (List.take 5 (x :: xs)) := by
        rw [show (List.take 5 (x :: xs)).enum = (List.take 5 (x :: xs)).enumFrom 0 from rfl]
        rw [enumFrom_map_eq_mapIdxFrom (fun i a => f (k * 5 + i) a) (List.take 5 (x :: xs)) 0]
        exact mapIdxFrom_shift f (k * 5) (List.take 5 (x :: xs)) 0
      have hd : ((x :: xs).drop 5).length ≤ n := by
        simp only [List.length_drop, List.length_cons] at *
        omega
      rw [h1, ih ((x :: xs).drop 5) hd (k + 1)]
      conv_rhs => rw [← List.take_append_drop 5 (x :: xs)]
      rw [mapIdxFrom_append]
      by_cases hlen : (x :: xs).length ≤ 5
      · have hd5 : List.drop 5 (x :: xs) = [] := List.drop_eq_nil_iff.2 hlen
        rw [hd5]
        rfl
      · have htk : (List.take 5 (x :: xs)).length = 5 := by
          rw [List.length_take]; omega
        rw [htk]
        have h55 : k * 5 + 5 = (k + 1) * 5 := by ring
        rw [h55]

theorem chunk5_enumFrom_flatMap {α β : Type _} (f : ℕ → α → β)
    (l : List α) (k : ℕ) :
    ((chunk5 l).enumFrom k).flatMap
        (fun p => p.2.enum.map (fun q => f (p.1 * 5 + q.1) q.2))
      = mapIdxFrom f (k * 5) l :=
  chunk5_enumFrom_flatMap_bounded f l.length l (le_refl _) k

theorem sendMultiOutcomes_eq (rs : List (String × ℚ)) (outcome : ℕ → SubOutcome) :
    sendMultiOutcomes rs outcome = (List.range rs.length).map outcome := by
  unfold sendMultiOutcomes
  have h := chunk5_enumFrom_flatMap (fun i (_ : String × ℚ) => outcome i) rs 0
  rw [show (chunk5 rs).enum = (chunk5 rs).enumFrom 0 from rfl]
  rw [h, mapIdxFrom_const_idx]
  simp

theorem sendMultiBatchTxs_eq (sign hashHex : String → String) (fr : ℚ → String)
    (sA pK : String) (ts : ℕ → ℚ) (nonce : ℤ) (rs : List (String × ℚ)) :
    sendMultiBatchTxs sign hashHex fr sA pK ts nonce rs
      = mapIdxFrom (fun idx r =>
          (createTransaction sign hashHex fr sA pK r.1 r.2
            (nonce + 1 + (idx : ℤ)) (ts idx)).1) 0 rs := by
  unfold sendMultiBatchTxs
  have h := chunk5_enumFrom_flatMap (fun idx (r : String × ℚ) =>
    (createTransaction sign hashHex fr sA pK r.1 r.2 (nonce + 1 + (idx : ℤ)) (ts idx)).1) rs 0
  rw [show (chunk5 rs).enum = (chunk5 rs).enumFrom 0 from rfl]
  exact h

/-! Claim C2. -/

/-- C2 (counterexample): at amount 1.2345678 the transaction built by
`create_transaction` carries amount field `"1234567"` — the truncation
`int(a * 1_000_000)` — whereas the claimed `round(a × 1,000,000)` is
1234568.  The divergence is exact-arithmetic and far from the
floating-point noise floor (fractional part 0.8). -/
theorem c2_counterexample :
    (createTransaction (fun s => s) (fun s => s) (fun _ => "0") "S" "P" "T"
        (12345678 / 10000000 : ℚ) 3 0).1.amount = "1234567"
  ∧ toString (specRound ((12345678 / 10000000 : ℚ) * 1000000)) = "1234568"
  ∧ ("1234567" : String) ≠ "1234568" := by
  refine ⟨by with_unfolding_all rfl, by with_unfolding_all rfl,
    of_decide_eq_true (by with_unfolding_all rfl)⟩

/-- C2 (amended): for every positive amount `a` the amount field is the
decimal string of the truncation `int(a * 1_000_000)` — the unique
integer `v` with `v ≤ a·10⁶ < v + 1`, i.e. rounding toward zero, not
round-to-nearest — and the fee tier is `"1"` iff `a < 1000`.  The
claim's 10.5 scenario (`"10500000"`, tier `"1"`) is unaffected since
10.5·10⁶ is integral; see the witness. -/
theorem c2_amount_truncation (sign hashHex : String → String) (fr : ℚ → String)
    (sA pK toA : String) (a : ℚ) (nonce : ℤ) (ts : ℚ) (ha : 0 < a) :
    (createTransaction sign hashHex fr sA pK toA a nonce ts).1.amount
        = toString (pyTruncQ (a * 1000000))
  ∧ ((pyTruncQ (a * 1000000) : ℚ) ≤ a * 1000000
      ∧ a * 1000000 - 1 < (pyTruncQ (a * 1000000) : ℚ))
  ∧ (createTransaction sign hashHex fr sA pK toA a nonce ts).1.ou
      = (if a < 1000 then "1" else "3") := by
  have h0 : (0 : ℚ) ≤ a * 1000000 := by positivity
  have ht : pyTruncQ (a * 1000000) = ⌊a * 1000000⌋ := by simp [pyTruncQ, h0]
  refine ⟨rfl, ?_, rfl⟩
  rw [ht]
  exact ⟨Int.floor_le _, Int.sub_one_lt_floor _⟩

/-- C2 witness: the amended theorem applied at the claim's own
scenario, amount 10.5 at nonce 3, where the amount field is
`"10500000"` and the fee tier `"1"`. -/
theorem c2_witness :
    (0 : ℚ) < 21 / 2
  ∧ ((createTransaction (fun s => s) (fun s => s) (fun _ => "0") "S" "P" "T"
        (21 / 2 : ℚ) 3 0).1.amount = toString (pyTruncQ ((21 / 2 : ℚ) * 1000000))
      ∧ ((pyTruncQ ((21 / 2 : ℚ) * 1000000) : ℚ) ≤ (21 / 2 : ℚ) * 1000000
          ∧ (21 / 2 : ℚ) * 1000000 - 1 < (pyTruncQ ((21 / 2 : ℚ) * 1000000) : ℚ))
      ∧ (createTransaction (fun s => s) (fun s => s) (fun _ => "0") "S" "P" "T"
          (21 / 2 : ℚ) 3 0).1.ou = (if (21 / 2 : ℚ) < 1000 then "1" else "3"))
  ∧ (createTransaction (fun s => s) (fun s => s) (fun _ => "0") "S" "P" "T"
      (21 / 2 : ℚ) 3 0).1.amount = "10500000"
  ∧ (createTransaction (fun s => s) (fun s => s) (fun _ => "0") "S" "P" "T"
      (21 / 2 : ℚ) 3 0).1.ou = "1" :=
  ⟨of_decide_eq_true (by with_unfolding_all rfl),
   c2_amount_truncation (fun s => s) (fun s => s) (fun _ => "0") "S" "P" "T"
     (21 / 2 : ℚ) 3 0 (of_decide_eq_true (by with_unfolding_all rfl)),
   by with_unfolding_all rfl, by with_unfolding_all rfl⟩

/-! Claim C3. -/

/-- C3 (confirmed): the batch pipeline assigns the K recipients the
nonces `nonce+1, nonce+2, …, nonce+K` in list order — the arithmetic
progression from the announced starting nonce `nonce + 1`, strictly
increasing with no gaps or repeats — and preserves recipient order.
The nonces are fixed at construction time (`nonce + 1 + idx`,
`cli.py:634`), before any submission outcome exists, so they do not
depend on per-submission success or failure. -/
theorem c3_batch_nonces (sign hashHex : String → String) (fr : ℚ → String)
    (sA pK : String) (ts : ℕ → ℚ) (nonce : ℤ) (rs : List (String × ℚ)) :
    (sendMultiBatchTxs sign hashHex fr sA pK ts nonce rs).map Tx.nonce
        = (List.range rs.length).map (fun i : ℕ => nonce + 1 + (i : ℤ))
  ∧ (sendMultiBatchTxs sign hashHex fr sA pK ts nonce rs).map Tx.to_
        = rs.map Prod.fst := by
  rw [sendMultiBatchTxs_eq]
  constructor
  · rw [map_mapIdxFrom]
    show mapIdxFrom (fun i _ => nonce + 1 + (i : ℤ)) 0 rs
        = (List.range rs.length).map (fun i : ℕ => nonce + 1 + (i : ℤ))
    rw [mapIdxFrom_const_idx (fun i => nonce + 1 + (i : ℤ)) rs 0]
    exact List.map_congr_left (fun i _ => by rw [Nat.zero_add])
  · rw [map_mapIdxFrom]
    show mapIdxFrom (fun _ r => r.1) 0 rs = rs.map Prod.fst
    exact mapIdxFrom_ignore Prod.fst rs 0

/-! Claim C8. -/

/-- C8 (confirmed): each of the K submission outcomes is tallied
exactly once — the final tally is `(number classified success, number
classified failure-or-exception)` and sums to K for every outcome
assignment, so one recipient's failure or exception cannot affect how
its siblings are counted; the 7-recipient scenario yields chunk sizes
`[5, 2]` and, with recipient #3 failing, the tally `(6, 1)`. -/
theorem c8_tally_isolation (rs : List (String × ℚ)) (outcome : ℕ → SubOutcome) :
    (sendMultiTally rs outcome).1 + (sendMultiTally rs outcome).2 = rs.length
  ∧ (sendMultiTally rs outcome).1 = ((List.range rs.length).map outcome).countP outcomeOk
  ∧ (sendMultiTally rs outcome).2
      = ((List.range rs.length).map outcome).countP (fun o => !outcomeOk o)
  ∧ (chunk5 sampleRecipients7).map List.length = [5, 2]
  ∧ sendMultiTally sampleRecipients7 sampleOutcome7 = (6, 1) := by
  have ho := sendMultiOutcomes_eq rs outcome
  refine ⟨?_, ?_, ?_, by with_unfolding_all rfl, by with_unfolding_all rfl⟩
  · simp only [sendMultiTally, ho]
    have h := List.length_eq_countP_add_countP (p := outcomeOk)
      (l := (List.range rs.length).map outcome)
    simp only [List.length_map, List.length_range] at h
    have hpred : (fun o => !outcomeOk o) = (fun a => decide (¬ outcomeOk a = true)) := by
      funext a
      by_cases hx : outcomeOk a <;> simp [hx]
    rw [hpred]
    omega
  · simp [sendMultiTally, ho]
  · simp [sendMultiTally, ho]

/-! Claim C10. -/

/-- C10 (confirmed): network failures are values, never propagated
exceptions — `http_request` maps a timeout to `(0, "timeout", None)`,
any other transport exception to `(0, str(e), None)` and an
unparseable body to `json None`; `get_status` treats an exceptional
gather slot exactly as such a converted value (so its result is
defined for every outcome); a `get_history` detail-fetch exception
contributes no entry; and `send_transaction` turns a transport
exception into a failure result carrying the exception text. -/
theorem c10_network_failures_are_values :
    (∀ m : String, httpRequest (.exn m) = (0, m, none))
  ∧ httpRequest .tmout = (0, "timeout", none)
  ∧ (∀ (s : ℕ) (t : String), pyJsonLoads t = none → httpRequest (.ok s t) = (s, t, none))
  ∧ (∀ (st : ClientState) (now : ℚ) (e : PyExn)
        (staging : PyRes (ℕ × String × Option JVal)),
      getStatus st now (.error e) staging = getStatus st now (.ok (0, e.msg, none)) staging)
  ∧ (∀ (st : ClientState) (now : ℚ) (acct : PyRes (ℕ × String × Option JVal)) (e : PyExn),
      getStatus st now acct (.error e) = getStatus st now acct (.ok (0, "", none)))
  ∧ (∀ (addr : String) (existing : List JVal) (refNode : JVal) (e : PyExn),
      buildEntry addr existing refNode (.error e) = .ok none)
  ∧ (∀ (fr : ℚ → String) (el : ℚ) (m : String),
      sendTransaction fr el (httpRequest (.exn m)) = .ok (false, .jstr m, el, none)) := by
  refine ⟨fun m => rfl, rfl, fun s t h => by simp [httpRequest, h],
    fun st now e staging => rfl, fun st now acct e => rfl,
    fun addr existing refNode e => rfl, fun fr el m => rfl⟩

/-- C10 witness: the unparseable-body conjunct applied at a concrete
non-JSON body. -/
theorem c10_witness :
    pyJsonLoads "not json" = none
  ∧ httpRequest (.ok 200 "not json") = (200, "not json", none) :=
  ⟨by with_unfolding_all rfl,
   c10_network_failures_are_values.2.2.1 200 "not json" (by with_unfolding_all rfl)⟩

/-! Claim C1. -/

/-- C1 (counterexample): both fetches return HTTP 200 — the account
body is the unstructured text fallback `"5.0 2"` (a success per §4.1,
and the code marks the cache fresh) and the staging pool carries this
wallet's own staged transaction at nonce 10 — yet `get_status` returns
nonce 2 < 10, because the text-fallback branch never consults the
staging pool. -/
theorem c1_counterexample :
    getStatusNet emptyState 100 (.ok 200 "5.0 2") (.ok 200 c1StagingBody)
      = .ok (c1Post, some 2, some 5)
  ∧ pyJsonLoads c1StagingBody = some c1StagedJson
  ∧ ourStagedTxs "A" c1StagedJson = .ok [c1StagedTx]
  ∧ stagedNonces [c1StagedTx] = .ok [10]
  ∧ emptyState.address = "A"
  ∧ c1Post.lastUpdate = 100
  ∧ ¬((10 : ℤ) ≤ 2) := by
  refine ⟨by with_unfolding_all rfl, by with_unfolding_all rfl, by with_unfolding_all rfl,
    by with_unfolding_all rfl, rfl, by with_unfolding_all rfl,
    of_decide_eq_true (by with_unfolding_all rfl)⟩

/-- C1 (amended): when the account-info fetch succeeds with structured
(truthy JSON) data and the pending-pool fetch succeeds with truthy
data, the nonce returned by `get_status` is at least every nonce among
the staged transactions whose sender equals the wallet's address.
(With the unstructured-text or 404 account responses the staging pool
is ignored and no such bound holds — see the counterexample.) -/
theorem c1_nonce_ge_staged_structured
    (st : ClientState) (now : ℚ) (t stx : String) (j sd : JVal)
    (st' : ClientState) (n : ℤ) (b : Option ℚ)
    (txs : List JVal) (ns : List ℤ) (m : ℤ)
    (hcache : (st.currentBalance.isSome && decide (now - st.lastUpdate < 30)) = false)
    (hj : jtruthy j = true) (hsd : jtruthy sd = true)
    (h : getStatus st now (.ok (200, t, some j)) (.ok (200, stx, some sd))
          = .ok (st', some n, b))
    (htxs : ourStagedTxs st.address sd = .ok txs)
    (hns : stagedNonces txs = .ok ns) (hm : m ∈ ns) :
    m ≤ n := by
  unfold getStatus at h
  rw [hcache] at h
  simp only [unwrapAcct, unwrapStaging, Bool.false_eq_true, if_false, jtruthyO, hj, hsd,
    decide_True, Bool.and_true, Bool.and_self, if_true, reduceIte] at h
  obtain ⟨v1, hv1, h⟩ := pyBind_ok h
  obtain ⟨n0, hn0, h⟩ := pyBind_ok h
  obtain ⟨v2, hv2, h⟩ := pyBind_ok h
  obtain ⟨bv, hbv, h⟩ := pyBind_ok h
  obtain ⟨our, hour, h⟩ := pyBind_ok h
  rw [htxs] at hour
  injection hour with hour
  subst hour
  by_cases hemp : txs.isEmpty
  · have htn : txs = [] := by
      cases txs
      · rfl
      · simp [List.isEmpty] at hemp
    subst htn
    simp only [stagedNonces, List.mapM_nil] at hns
    simp only [pure, Except.pure] at hns
    injection hns with hns
    subst hns
    cases hm
  · rw [if_neg (by simp [hemp])] at h
    obtain ⟨ns', hns', h⟩ := pyBind_ok h
    rw [hns] at hns'
    injection hns' with hns'
    subst hns'
    obtain ⟨y, hy, h⟩ := pyBind_ok h
    simp only [pure, Except.pure] at hy
    injection hy with hy
    subst hy
    simp only [Except.ok.injEq, Prod.mk.injEq, Option.some.injEq] at h
    obtain ⟨-, hmax, -⟩ := h
    subst hmax
    exact le_trans (le_maxIntList hm) le_sup_right

/-- C1 witness: the amended theorem applied at a structured account
response (`balance "5.5"`, nonce 2) and the staging pool of the
counterexample; the returned nonce is raised to the staged nonce 10. -/
theorem c1_witness : (10 : ℤ) ≤ 10 :=
  c1_nonce_ge_staged_structured emptyState 100 c1wAcctBody "" c1wAcctJson c1StagedJson
    c1wPost 10 (some (11 / 2)) [c1StagedTx] [10] 10
    (by with_unfolding_all rfl) (by with_unfolding_all rfl) (by with_unfolding_all rfl)
    (by with_unfolding_all rfl) (by with_unfolding_all rfl) (by with_unfolding_all rfl)
    (List.mem_singleton.2 rfl)

/-! Claim C7. -/

/-- C7 (counterexample): a 200 response with the malformed two-token
body `"abc def"` — which does not parse as a `<balance> <nonce>` pair —
does not leave the cache unchanged: it sets the nonce to 0, the
balance to 0.0 and refreshes the timestamp (`cli.py:189-193` coerces
malformed tokens to `0.0` / `0`). -/
theorem c7_counterexample :
    getStatusNet c7Pre 100 (.ok 200 "abc def") (.ok 0 "x")
      = .ok (c7Post, some 0, some 0)
  ∧ pyJsonLoads "abc def" = none
  ∧ parseTextStatus "abc def" = some (0, 0)
  ∧ c7Pre.currentNonce = some 7
  ∧ c7Pre.currentBalance = some (7 / 2)
  ∧ c7Pre.lastUpdate = 0
  ∧ c7Post.currentNonce = some 0
  ∧ c7Post.currentBalance = some 0
  ∧ c7Post.lastUpdate = 100 := by
  refine ⟨by with_unfolding_all rfl, by with_unfolding_all rfl, by with_unfolding_all rfl,
    rfl, rfl, rfl, rfl, rfl, by with_unfolding_all rfl⟩

/-- C7 (amended): on a stale cache, a 200 response whose body is not
truthy JSON leaves nonce, balance and timestamp unchanged exactly when
the text yields no update under the code's parse — fewer than two
whitespace tokens, or a first token passing the digits-and-dots guard
with two or more dots (the swallowed `float` exception).  A two-token
body with otherwise malformed tokens instead updates the cache,
coercing the bad tokens to zero. -/
theorem c7_no_update_cases
    (st : ClientState) (now : ℚ) (text : String) (jd : Option JVal)
    (staging : PyRes (ℕ × String × Option JVal))
    (hcache : (st.currentBalance.isSome && decide (now - st.lastUpdate < 30)) = false)
    (hjd : jtruthyO jd = false)
    (htext : parseTextStatus text = none) :
    getStatus st now (.ok (200, text, jd)) staging
      = .ok (st, st.currentNonce, st.currentBalance) := by
  unfold getStatus
  rw [hcache]
  simp only [unwrapAcct, Bool.false_eq_true, if_false, hjd, Bool.and_false, htext,
    reduceIte, Bool.not_false, Bool.and_true]
  by_cases hempty : text == ""
  · simp [hempty]
  · simp [hempty, htext]

/-- C7 witness: the amended theorem applied at the single-token body
`"abc"` over a stale, populated cache. -/
theorem c7_witness :
    getStatus c7Pre 100 (.ok (200, "abc", none)) (.ok (0, "x", none))
      = .ok (c7Pre, c7Pre.currentNonce, c7Pre.currentBalance) :=
  c7_no_update_cases c7Pre 100 "abc" none (.ok (0, "x", none))
    (by with_unfolding_all rfl) rfl (by with_unfolding_all rfl)

/-! Claim C6. -/

/-- C6 (counterexample): the plain-text body `"ok"` with no hash token
after it is classified as success by `send_transaction` — the returned
"hash" is the token `"ok"` itself — although it matches neither of the
claim's success shapes (no structured acceptance, no hash token
following "ok"), under which every other outcome must be a failure. -/
theorem c6_counterexample :
    sendTransaction (fun _ => "0") 0 (200, "ok", none) = .ok (true, .jstr "ok", 0, none)
  ∧ specSubmitSuccess 200 "ok" none = false
  ∧ pyJsonLoads "ok" = none := by
  refine ⟨by with_unfolding_all rfl, by with_unfolding_all rfl, by with_unfolding_all rfl⟩

/-- C6 (amended): when `send_transaction` returns normally, success
holds exactly for HTTP 200 with either a truthy JSON body whose
`status` is `"accepted"` (hash = its `tx_hash` field, JSON surfaced)
or a body whose lowercase form begins with `"ok"` — with or without a
following token; the hash is then the last whitespace token of the
body, the body's sole token `"ok"` itself when no hash follows.  Every
other outcome is a failure whose error text is the raw body, or its
`json.dumps` re-serialization when the body parsed as truthy JSON. -/
theorem c6_classification (fr : ℚ → String) (el : ℚ) (status : ℕ) (text : String)
    (jd : Option JVal) (okFlag : Bool) (hv : JVal) (el' : ℚ) (jd' : Option JVal)
    (h : sendTransaction fr el (status, text, jd) = .ok (okFlag, hv, el', jd')) :
    (okFlag = true ↔ status = 200
        ∧ (jsonAcceptedB jd = true ∨ pyStartsWith "ok" (pyToLower text) = true))
  ∧ (okFlag = true → jsonAcceptedB jd = false →
      hv = .jstr ((pySplit text).getLastD "") ∧ jd' = none)
  ∧ (∀ j, okFlag = true → jd = some j → jsonAcceptedB jd = true →
      jgetE j "tx_hash" (.jstr "") = .ok hv ∧ jd' = some j)
  ∧ (okFlag = false →
      hv = .jstr (match jd with
                  | some j => if jtruthy j then pyDumps fr j else text
                  | none => text) ∧ jd' = jd)
  ∧ el' = el := by
  unfold sendTransaction at h
  by_cases h200 : status = 200
  · subst h200
    simp only [reduceIte] at h
    cases jd with
    | none =>
      by_cases hok : pyStartsWith "ok" (pyToLower text)
      · simp only [hok, if_true, Except.ok.injEq, Prod.mk.injEq] at h
        obtain ⟨rfl, rfl, rfl, rfl⟩ := h
        exact ⟨by simp [jsonAcceptedB, hok], fun _ _ => ⟨rfl, rfl⟩,
          fun j _ hj => Option.noConfusion hj, fun hfc => Bool.noConfusion hfc, rfl⟩
      · simp only [hok, Bool.false_eq_true, if_false, Except.ok.injEq, Prod.mk.injEq] at h
        obtain ⟨rfl, rfl, rfl, rfl⟩ := h
        exact ⟨by simp [jsonAcceptedB, hok], fun hfc _ => Bool.noConfusion hfc,
          fun j hfc _ => Bool.noConfusion hfc, fun _ => ⟨rfl, rfl⟩, rfl⟩
    | some j =>
      by_cases htr : jtruthy j
      · simp only [htr, if_true, reduceIte] at h
        obtain ⟨sv, hsv, h⟩ := pyBind_ok h
        by_cases hacc : sv == JVal.jstr "accepted"
        · have hsv' : sv = JVal.jstr "accepted" := of_decide_eq_true hacc
          subst hsv'
          simp only [hacc, if_true, reduceIte] at h
          obtain ⟨th, hth, h⟩ := pyBind_ok h
          simp only [Except.ok.injEq, Prod.mk.injEq] at h
          obtain ⟨rfl, rfl, rfl, rfl⟩ := h
          have hja : jsonAcceptedB (some j) = true := by
            simp [jsonAcceptedB, htr, hsv]
          refine ⟨by simp [hja], fun _ hcontra => absurd hcontra (by simp [hja]),
            fun j' _ hj' _ => ?_, fun hfc => Bool.noConfusion hfc, rfl⟩
          injection hj' with hj'
          subst hj'
          exact ⟨hth, rfl⟩
        · simp only [hacc, Bool.false_eq_true, if_false, reduceIte] at h
          have hja : jsonAcceptedB (some j) = false := by
            simp only [jsonAcceptedB, htr, Bool.true_and, hsv]
            simpa using hacc
          by_cases hok : pyStartsWith "ok" (pyToLower text)
          · simp only [hok, if_true, Except.ok.injEq, Prod.mk.injEq] at h
            obtain ⟨rfl, rfl, rfl, rfl⟩ := h
            exact ⟨by simp [hja, hok], fun _ _ => ⟨rfl, rfl⟩,
              fun j' _ _ hcontra => absurd hcontra (by simp [hja]),
              fun hfc => Bool.noConfusion hfc, rfl⟩
          · simp only [hok, Bool.false_eq_true, if_false, Except.ok.injEq,
              Prod.mk.injEq] at h
            obtain ⟨rfl, rfl, rfl, rfl⟩ := h
            exact ⟨by simp [hja, hok], fun hfc _ => Bool.noConfusion hfc,
              fun j' hfc _ _ => Bool.noConfusion hfc,
              fun _ => ⟨by simp [htr], rfl⟩, rfl⟩
      · simp only [htr, Bool.false_eq_true, if_false, reduceIte] at h
        have hja : jsonAcceptedB (some j) = false := by
          simp [jsonAcceptedB, htr]
        by_cases hok : pyStartsWith "ok" (pyToLower text)
        · simp only [hok, if_true, Except.ok.injEq, Prod.mk.injEq] at h
          obtain ⟨rfl, rfl, rfl, rfl⟩ := h
          exact ⟨by simp [hja, hok], fun _ _ => ⟨rfl, rfl⟩,
            fun j' _ _ hcontra => absurd hcontra (by simp [hja]),
            fun hfc => Bool.noConfusion hfc, rfl⟩
        · simp only [hok, Bool.false_eq_true, if_false, Except.ok.injEq,
            Prod.mk.injEq] at h
          obtain ⟨rfl, rfl, rfl, rfl⟩ := h
          exact ⟨by simp [hja, hok], fun hfc _ => Bool.noConfusion hfc,
            fun j' hfc _ _ => Bool.noConfusion hfc,
            fun _ => ⟨by simp [htr], rfl⟩, rfl⟩
  · simp only [h200, if_false, Except.ok.injEq, Prod.mk.injEq, reduceIte] at h
    obtain ⟨rfl, rfl, rfl, rfl⟩ := h
    refine ⟨by simp [h200], fun hfc _ => Bool.noConfusion hfc,
      fun j' hfc _ _ => Bool.noConfusion hfc, fun _ => ?_, rfl⟩
    cases jd with
    | none => exact ⟨rfl, rfl⟩
    | some j => exact ⟨rfl, rfl⟩

/-- C6 witness: the classification applied at a structurally accepted
response, where success holds with the network-assigned hash. -/
theorem c6_witness :
    sendTransaction (fun _ => "0") 0 (httpRequest (.ok 200 c6wBody))
      = .ok (true, .jstr "HH", 0, some c6wJson)
  ∧ ((true = true) ↔ (200 = 200)
      ∧ (jsonAcceptedB (some c6wJson) = true
          ∨ pyStartsWith "ok" (pyToLower c6wBody) = true)) := by
  have hrun : sendTransaction (fun _ => "0") 0 (200, c6wBody, some c6wJson)
      = .ok (true, .jstr "HH", 0, some c6wJson) := by with_unfolding_all rfl
  refine ⟨?_, (c6_classification (fun _ => "0") 0 200 c6wBody (some c6wJson) true
    (.jstr "HH") 0 (some c6wJson) hrun).1⟩
  have hparse : httpRequest (.ok 200 c6wBody) = (200, c6wBody, some c6wJson) := by
    with_unfolding_all rfl
  rw [hparse]
  exact hrun

/-! History lemmas. -/

theorem insertSortedBy_perm {α : Type _} (le : α → α → Bool) (a : α) :
    ∀ l : List α, (insertSortedBy le a l).Perm (a :: l) := by
  intro l
  induction l with
  | nil => exact List.Perm.refl _
  | cons b bs ih =>
    by_cases hc : le a b
    · simp [insertSortedBy, hc]
    · simp only [insertSortedBy, hc, Bool.false_eq_true, if_false]
      exact (ih.cons b).trans (List.Perm.swap a b bs)

theorem sortStableBy_perm {α : Type _} (le : α → α → Bool) :
    ∀ l : List α, (sortStableBy le l).Perm l := by
  intro l
  induction l with
  | nil => exact List.Perm.refl _
  | cons a as ih =>
    exact (insertSortedBy_perm le a (sortStableBy le as)).trans (ih.cons a)

theorem mergeHistory_length (now : ℚ) (newH old : List HEntry) :
    (mergeHistory now newH old).length ≤ 50 :=
  List.length_take_le 50 _

theorem mergeHistory_mem {now : ℚ} {newH old : List HEntry} {e : HEntry}
    (he : e ∈ mergeHistory now newH old) :
    e ∈ newH ∨ (e ∈ old ∧ now - 3600 < e.time) := by
  have h1 : e ∈ sortStableBy (fun a b => decide (b.time ≤ a.time))
      (newH ++ old.filter (fun tx => decide (now - 3600 < tx.time))) :=
    List.mem_of_mem_take he
  have h2 := (sortStableBy_perm _ _).mem_iff.1 h1
  rcases List.mem_append.1 h2 with h | h
  · exact Or.inl h
  · have hf := List.mem_filter.1 h
    exact Or.inr ⟨hf.1, of_decide_eq_true hf.2⟩

theorem mergeHistory_hash_nodup {now : ℚ} {newH old : List HEntry}
    (hn : (newH.map HEntry.hash).Nodup)
    (ho : (old.map HEntry.hash).Nodup)
    (hdisj : ∀ e ∈ newH, e.hash ∉ old.map HEntry.hash) :
    ((mergeHistory now newH old).map HEntry.hash).Nodup := by
  have hfil : ((old.filter (fun tx => decide (now - 3600 < tx.time))).map
      HEntry.hash).Nodup :=
    List.Nodup.sublist ((List.filter_sublist old).map HEntry.hash) ho
  have hdisj2 : (newH.map HEntry.hash).Disjoint
      ((old.filter (fun tx => decide (now - 3600 < tx.time))).map HEntry.hash) := by
    intro x hx1 hx2
    obtain ⟨e, he, rfl⟩ := List.mem_map.1 hx1
    obtain ⟨e2, he2, heq⟩ := List.mem_map.1 hx2
    have he2' : e2 ∈ old := (List.filter_sublist old).mem he2
    exact hdisj e he (heq ▸ List.mem_map_of_mem HEntry.hash he2')
  have hbase : ((newH ++ old.filter (fun tx => decide (now - 3600 < tx.time))).map
      HEntry.hash).Nodup := by
    rw [List.map_append]
    exact List.Nodup.append hn hfil hdisj2
  have hperm := (sortStableBy_perm (fun a b => decide (b.time ≤ a.time))
    (newH ++ old.filter (fun tx => decide (now - 3600 < tx.time)))).map HEntry.hash
  have hsorted := hperm.nodup_iff.2 hbase
  show ((List.take 50 _).map HEntry.hash).Nodup
  rw [List.map_take]
  exact List.Nodup.sublist (List.take_sublist 50 _) hsorted

theorem mergeHistory_countP_le {now : ℚ} {newH old : List HEntry} (p : HEntry → Bool)
    (hnew : ∀ e ∈ newH, p e = false) :
    (mergeHistory now newH old).countP p ≤ old.countP p := by
  have h1 : (mergeHistory now newH old).countP p
      ≤ (sortStableBy (fun a b => decide (b.time ≤ a.time))
          (newH ++ old.filter (fun tx => decide (now - 3600 < tx.time)))).countP p :=
    (List.take_sublist 50 _).countP_le p
  have h2 := (sortStableBy_perm (fun a b => decide (b.time ≤ a.time))
    (newH ++ old.filter (fun tx => decide (now - 3600 < tx.time)))).countP_eq p
  rw [h2, List.countP_append] at h1
  have h3 : newH.countP p = 0 := List.countP_eq_zero.2 (fun e he => by simp [hnew e he])
  have h4 : (old.filter (fun tx => decide (now - 3600 < tx.time))).countP p
      ≤ old.countP p := (List.filter_sublist old).countP_le p
  omega

theorem buildEntry_ok_some {addr : String} {existing : List JVal} {refNode : JVal}
    {res : PyRes (ℕ × String × Option JVal)} {e : HEntry}
    (h : buildEntry addr existing refNode res = .ok (some e)) :
    e.hash ∉ existing := by
  cases res with
  | error e0 => simp [buildEntry] at h
  | ok v =>
    obtain ⟨txStatus, t2, txJd⟩ := v
    cases txJd with
    | none => simp [buildEntry] at h
    | some td =>
      simp only [buildEntry] at h
      by_cases hcond : (decide (txStatus = 200) && jtruthy td) = true
      · rw [if_pos hcond] at h
        obtain ⟨hasP, hhp, h⟩ := pyBind_ok h
        by_cases hb : hasP = true
        · rw [if_pos hb] at h
          obtain ⟨parsed, hparsed, h⟩ := pyBind_ok h
          obtain ⟨txHash, hth, h⟩ := pyBind_ok h
          by_cases hmem : txHash ∈ existing
          · rw [if_pos hmem] at h
            simp at h
          · rw [if_neg hmem] at h
            obtain ⟨toV, _, h⟩ := pyBind_ok h
            obtain ⟨amtD, _, h⟩ := pyBind_ok h
            obtain ⟨amtR, _, h⟩ := pyBind_ok h
            by_cases hdot : pyStrHasDot amtR = true
            · rw [if_pos hdot] at h
              obtain ⟨amt, _, h⟩ := pyBind_ok h
              obtain ⟨tsV, _, h⟩ := pyBind_ok h
              obtain ⟨ts, _, h⟩ := pyBind_ok h
              obtain ⟨fromV, _, h⟩ := pyBind_ok h
              obtain ⟨nv, _, h⟩ := pyBind_ok h
              obtain ⟨ev, _, h⟩ := pyBind_ok h
              simp only [Except.ok.injEq, Option.some.injEq] at h
              rw [← h]
              exact hmem
            · rw [if_neg hdot] at h
              obtain ⟨iv, _, h⟩ := pyBind_ok h
              obtain ⟨amt, _, h⟩ := pyBind_ok h
              obtain ⟨tsV, _, h⟩ := pyBind_ok h
              obtain ⟨ts, _, h⟩ := pyBind_ok h
              obtain ⟨fromV, _, h⟩ := pyBind_ok h
              obtain ⟨nv, _, h⟩ := pyBind_ok h
              obtain ⟨ev, _, h⟩ := pyBind_ok h
              simp only [Except.ok.injEq, Option.some.injEq] at h
              rw [← h]
              exact hmem
        · rw [if_neg hb] at h
          simp at h
      · rw [if_neg hcond] at h
        simp at h

theorem newEntriesOf_hash_not_existing {addr : String} {existing : List JVal} {j : JVal}
    {details : List (PyRes (ℕ × String × Option JVal))} {newH : List HEntry}
    (h : newEntriesOf addr existing j details = .ok newH) :
    ∀ e ∈ newH, e.hash ∉ existing := by
  intro e he
  unfold newEntriesOf at h
  obtain ⟨refs, hrefs, h⟩ := pyBind_ok h
  obtain ⟨opts, hopts, h⟩ := pyBind_ok h
  simp only [pure, Except.pure] at h
  injection h with h
  subst h
  have hsome : some e ∈ opts := by
    obtain ⟨oe, hoe, hoeq⟩ := List.mem_filterMap.1 he
    rwa [show oe = some e from hoeq] at hoe
  obtain ⟨pair, hpair, hbe⟩ := mapM_ok_mem _ hopts (some e) hsome
  exact buildEntry_ok_some hbe

theorem getHistory_cases (st : ClientState) (now : ℚ)
    (resp : ℕ × String × Option JVal)
    (details : List (PyRes (ℕ × String × Option JVal))) (st' : ClientState)
    (h : getHistory st now resp details = .ok st') :
    st' = st
  ∨ st' = { st with history := [], lastHistoryUpdate := now }
  ∨ ∃ j newH, resp.2.2 = some j
      ∧ newEntriesOf st.address (st.history.map HEntry.hash) j details = .ok newH
      ∧ st' = { st with
          history := mergeHistory now newH st.history
          lastHistoryUpdate := now } := by
  obtain ⟨status, text, jd⟩ := resp
  unfold getHistory at h
  by_cases h1 : (decide (now - st.lastHistoryUpdate < 60) && !st.history.isEmpty) = true
  · rw [if_pos h1] at h
    injection h with h
    exact Or.inl h.symm
  · rw [if_neg h1] at h
    simp only [] at h
    by_cases h2 : (!(status = 200) || (!jtruthyO jd && text == "")) = true
    · rw [if_pos h2] at h
      injection h with h
      exact Or.inl h.symm
    · rw [if_neg h2] at h
      cases jd with
      | none =>
        simp only [bind, Except.bind, pure, Except.pure, Bool.false_eq_true, if_false] at h
        by_cases h3 : (status = 404 || (status = 200 && !(text == "")
            && pyInStr "no transactions" (pyToLower text))) = true
        · rw [if_pos h3] at h
          injection h with h
          exact Or.inr (Or.inl h.symm)
        · rw [if_neg h3] at h
          injection h with h
          exact Or.inl h.symm
      | some j =>
        by_cases htr : jtruthy j = true
        · simp only [htr, if_true, reduceIte] at h
          obtain ⟨hasRT, hhk, h⟩ := pyBind_ok h
          by_cases hb : hasRT = true
          · rw [if_pos hb] at h
            obtain ⟨hs, hhs, h⟩ := pyBind_ok h
            obtain ⟨newH, hnew, h⟩ := pyBind_ok h
            injection h with h
            exact Or.inr (Or.inr ⟨j, newH, rfl, hnew, h.symm⟩)
          · rw [if_neg hb] at h
            by_cases h3 : (status = 404 || (status = 200 && !(text == "")
                && pyInStr "no transactions" (pyToLower text))) = true
            · rw [if_pos h3] at h
              injection h with h
              exact Or.inr (Or.inl h.symm)
            · rw [if_neg h3] at h
              injection h with h
              exact Or.inl h.symm
        · simp only [htr, Bool.false_eq_true, if_false, bind, Except.bind, pure,
            Except.pure, reduceIte] at h
          by_cases h3 : (status = 404 || (status = 200 && !(text == "")
              && pyInStr "no transactions" (pyToLower text))) = true
          · rw [if_pos h3] at h
            injection h with h
            exact Or.inr (Or.inl h.symm)
          · rw [if_neg h3] at h
            injection h with h
            exact Or.inl h.symm

/-! Claim C4. -/

/-- C4 (counterexample): a refresh at second 10000 resolves a
confirmed transaction (epoch 5) whose timestamp 1000 is more than one
hour old; the merged history retains it — newly fetched entries are
never filtered by age, so a non-pending entry older than one hour
survives the merge, violating the claimed invariant. -/
theorem c4_counterexample :
    getHistory emptyState 10000 (httpRequest (.ok 200 refsBodyH1)) [detailH1]
      = .ok c4Post
  ∧ c4Post.history = [c4Entry]
  ∧ entryPending c4Entry = false
  ∧ c4Entry.time = 1000
  ∧ (1000 : ℚ) ≤ 10000 - 3600 := by
  refine ⟨by with_unfolding_all rfl, by with_unfolding_all rfl, by with_unfolding_all rfl,
    rfl, of_decide_eq_true (by with_unfolding_all rfl)⟩

/-- C4 (amended): after a completed `get_history` call the history
satisfies the bound of at most 50 entries unconditionally; hash
uniqueness and the one-hour bound on non-pending entries additionally
require that the pre-refresh history already satisfied them and that
the freshly built entries have pairwise-distinct hashes and are each
pending or within the last hour — the code filters only pre-existing
entries by age (and evicts old pending ones too), never the newly
fetched ones, and deduplicates new entries only against the pre-merge
history, not among themselves. -/
theorem c4_merge_invariant
    (st : ClientState) (now : ℚ) (resp : ℕ × String × Option JVal)
    (details : List (PyRes (ℕ × String × Option JVal))) (st' : ClientState)
    (hrun : getHistory st now resp details = .ok st')
    (hpre : histInvariant now st.history)
    (hnew : ∀ j newH, resp.2.2 = some j →
        newEntriesOf st.address (st.history.map HEntry.hash) j details = .ok newH →
        (newH.map HEntry.hash).Nodup
          ∧ ∀ e ∈ newH, entryPending e = true ∨ now - 3600 < e.time) :
    histInvariant now st'.history := by
  rcases getHistory_cases st now resp details st' hrun with h | h | ⟨j, newH, hj, hne, h⟩
  · rw [h]
    exact hpre
  · rw [h]
    exact ⟨by simp, by simp, by simp⟩
  · obtain ⟨hnodup, hrec⟩ := hnew j newH hj hne
    obtain ⟨hl, hnd, ht⟩ := hpre
    subst h
    refine ⟨mergeHistory_length now newH st.history, ?_, ?_⟩
    · exact mergeHistory_hash_nodup hnodup hnd (newEntriesOf_hash_not_existing hne)
    · intro e he hep
      rcases mergeHistory_mem he with h1 | ⟨_, h2⟩
      · rcases hrec e h1 with hp | hr
        · rw [hep] at hp
          cases hp
        · exact hr
      · exact h2

/-- C4 witness: the amended theorem applied at an empty pre-history
and an empty reference list; the merge runs and the invariant holds. -/
theorem c4_witness :
    getHistory emptyState 10000 (httpRequest (.ok 200 c4wBody)) [] = .ok c4wPost
  ∧ histInvariant 10000 c4wPost.history := by
  have hrun : getHistory emptyState 10000 (httpRequest (.ok 200 c4wBody)) []
      = .ok c4wPost := by with_unfolding_all rfl
  refine ⟨hrun, c4_merge_invariant emptyState 10000 _ [] c4wPost hrun
    ⟨by simp [emptyState], by simp [emptyState], by simp [emptyState]⟩ ?_⟩
  intro j newH hj hne
  have hjj : some c4wJson = some j := by
    rw [show (httpRequest (.ok 200 c4wBody)).2.2 = some c4wJson from by
      with_unfolding_all rfl] at hj
    exact hj
  injection hjj with hjj
  subst hjj
  rw [show newEntriesOf emptyState.address (emptyState.history.map HEntry.hash) c4wJson []
      = .ok [] from by with_unfolding_all rfl] at hne
  injection hne with hne
  subst hne
  exact ⟨List.nodup_nil, fun e he => absurd he (List.not_mem_nil e)⟩

/-! Claim C5. -/

/-- C5 (counterexample): the pending local entry for hash `"h1"`
(no epoch) is in history when a refresh resolves the same hash as
confirmed with epoch 5; after the merge the entry is retained
byte-for-byte unchanged — still without an epoch — because the loop
skips any referenced hash already present (`cli.py:228-229`); nothing
is updated in place. -/
theorem c5_counterexample :
    getHistory c5Pre 10000 (httpRequest (.ok 200 refsBodyH1)) [detailH1] = .ok c5Post
  ∧ c5Pre.history = [c5PendEntry]
  ∧ c5Post.history = [c5PendEntry]
  ∧ c5PendEntry.epoch = none
  ∧ entryPending c5PendEntry = true
  ∧ pyJsonLoads refsBodyH1 = some refsJsonH1
  ∧ refsListOf refsJsonH1 = .ok [refNodeH1]
  ∧ jgetE refNodeH1 "epoch" (.jint 0) = .ok (.jint 5) := by
  refine ⟨by with_unfolding_all rfl, rfl, by with_unfolding_all rfl, rfl, rfl,
    by with_unfolding_all rfl, by with_unfolding_all rfl, by with_unfolding_all rfl⟩

/-- C5 (amended): reconciliation is skip-by-hash, not an upsert: any
post-refresh entry whose hash already existed in the pre-refresh
history is literally one of the pre-refresh entries, unmodified — in
particular a pending entry never acquires a confirmation epoch; it is
retained as-is while within the one-hour window and evicted after. -/
theorem c5_present_hash_entry_unchanged
    (st : ClientState) (now : ℚ) (resp : ℕ × String × Option JVal)
    (details : List (PyRes (ℕ × String × Option JVal))) (st' : ClientState) (e : HEntry)
    (hrun : getHistory st now resp details = .ok st')
    (he : e ∈ st'.history)
    (hm : e.hash ∈ st.history.map HEntry.hash) :
    e ∈ st.history := by
  rcases getHistory_cases st now resp details st' hrun with h | h | ⟨j, newH, hj, hne, h⟩
  · rwa [h] at he
  · rw [h] at he
    simp at he
  · subst h
    rcases mergeHistory_mem he with h1 | ⟨h1, -⟩
    · exact absurd hm (newEntriesOf_hash_not_existing hne e h1)
    · exact h1

/-- C5 witness: the amended theorem applied at the counterexample
scenario — the retained entry is the original pending entry. -/
theorem c5_witness : c5PendEntry ∈ c5Pre.history :=
  c5_present_hash_entry_unchanged c5Pre 10000 (httpRequest (.ok 200 refsBodyH1))
    [detailH1] c5Post c5PendEntry (by with_unfolding_all rfl)
    (by rw [show c5Post.history = [c5PendEntry] from by with_unfolding_all rfl]
        exact List.mem_singleton.2 rfl)
    (by rw [show c5Pre.history.map HEntry.hash = [JVal.jstr "h1"] from by
          with_unfolding_all rfl]
        exact List.mem_singleton.2 (by with_unfolding_all rfl))

/-! Claim C9. -/

/-- C9 (counterexample): hash `"h1"` is already present in local
history, yet the detail-fetch list built by `get_history`
(`[ref["hash"] for ref in ...]`, `cli.py:210`) still contains it — the
already-present hash is re-fetched from `/tx/{hash}` —, contradicting
the claim; it does however produce no duplicate in the merged
history. -/
theorem c9_counterexample :
    txHashesOf refsJsonH1 = .ok [.jstr "h1"]
  ∧ (JVal.jstr "h1") ∈ c9Pre.history.map HEntry.hash
  ∧ pyJsonLoads refsBodyH1 = some refsJsonH1
  ∧ getHistory c9Pre 10000 (httpRequest (.ok 200 refsBodyH1)) [detailH1] = .ok c9Post
  ∧ c9Post.history = [c9Entry] := by
  refine ⟨by with_unfolding_all rfl, ?_, by with_unfolding_all rfl,
    by with_unfolding_all rfl, by with_unfolding_all rfl⟩
  rw [show c9Pre.history.map HEntry.hash = [JVal.jstr "h1"] from by with_unfolding_all rfl]
  exact List.mem_singleton.2 rfl

/-- C9 (amended): `get_history` issues one detail fetch per referenced
hash — the fetch list is not filtered against local history, so an
already-present hash is re-fetched — but an already-present hash never
gains multiplicity: its entry count after the merge is at most its
count before. -/
theorem c9_fetch_all_no_dup
    (st : ClientState) (now : ℚ) (status : ℕ) (text : String) (jd : Option JVal)
    (details : List (PyRes (ℕ × String × Option JVal))) (st' : ClientState) (hsh : JVal)
    (hrun : getHistory st now (status, text, jd) details = .ok st')
    (hmem : hsh ∈ st.history.map HEntry.hash) :
    (∀ j refs hs, jd = some j → refsListOf j = .ok refs → txHashesOf j = .ok hs →
        hs.length = refs.length)
  ∧ st'.history.countP (fun e => e.hash == hsh)
      ≤ st.history.countP (fun e => e.hash == hsh) := by
  constructor
  · intro j refs hs hj hrefs hhs
    unfold txHashesOf at hhs
    obtain ⟨refs2, hrefs2, hhs⟩ := pyBind_ok hhs
    rw [hrefs] at hrefs2
    injection hrefs2 with hrefs2
    subst hrefs2
    exact mapM_ok_length _ hhs
  · rcases getHistory_cases st now (status, text, jd) details st' hrun
      with h | h | ⟨j, newH, hj, hne, h⟩
    · rw [h]
    · rw [h]
      simp
    · subst h
      show (mergeHistory now newH st.history).countP _ ≤ _
      refine mergeHistory_countP_le _ (fun e he => ?_)
      have hnot := newEntriesOf_hash_not_existing hne e he
      by_cases hx : e.hash = hsh
      · exact absurd (hx ▸ hmem) hnot
      · simp [hx]

/-- C9 witness: the amended theorem applied at the counterexample
scenario. -/
theorem c9_witness :
    c9Post.history.countP (fun e => e.hash == JVal.jstr "h1")
      ≤ c9Pre.history.countP (fun e => e.hash == JVal.jstr "h1") :=
  (c9_fetch_all_no_dup c9Pre 10000 200 refsBodyH1 (some refsJsonH1) [detailH1] c9Post
    (.jstr "h1") (by with_unfolding_all rfl)
    (by rw [show c9Pre.history.map HEntry.hash = [JVal.jstr "h1"] from by
          with_unfolding_all rfl]
        exact List.mem_singleton.2 rfl)).2

end Octra
